import Mathlib

/-!
Verification development for the GrantReady-Ledger core (TypeScript sources:
src/ledger/core.ts, src/ledger/types.ts, src/transactions/validation.ts,
src/verification/auditor.ts, src/config.ts).

The embedding is shallow and executable:
* JS strings are String, JS Maps are insertion-ordered association lists
  (Map.set updates in place or appends; Map.values() iterates in insertion
  order), JSON documents are an inductive Json type.
* JSON.stringify with an array replacer follows ECMA-262: the replacer array
  is a property whitelist applied at EVERY object level, and it also fixes
  the order in which the surviving keys are emitted.  The source objects all
  have pairwise distinct keys, which is the case this embedding covers.
* SHA-256 (the crypto-js dependency) is implemented bit-for-bit over the
  UTF-8 bytes of the input string, digests rendered as 64-char lowercase hex.
* Numbers flowing through parseFloat are modelled as exact rationals
  (Option Rat, with none playing the role of NaN).  This abstraction is exact
  on every concrete value used in the theorems below; where IEEE-754 rounding
  itself is the issue (Number.prototype.toString of an inexact sum) the claim
  is settled at inputs on which binary64 arithmetic is exact, and the
  limitation is recorded in the results.
-/

/-! ## Generic list and string utilities -/

/-- Association-list lookup by string key (models JS Map.get / object
property lookup; first match wins, mirroring unique-key JS objects). -/
def getA {α : Type} (k : String) : List (String × α) → Option α
  | [] => none
  | (k0, v) :: rest => if k0 == k then some v else getA k rest

/-- Association-list update (models JS Map.set: replace in place when the key
exists, otherwise append at the end, preserving insertion order). -/
def setA {α : Type} (k : String) (v : α) : List (String × α) → List (String × α)
  | [] => [(k, v)]
  | (k0, v0) :: rest => if k0 == k then (k, v) :: rest else (k0, v0) :: setA k v rest

/-- String order on the underlying character lists, by code points.  For the
ASCII keys and the fixed-width ISO-8601 timestamps used by the source this
coincides with the JS default sort-comparator order and with comparing
Date.getTime values respectively. -/
def strLeAux : List Char → List Char → Bool
  | [], _ => true
  | _ :: _, [] => false
  | a :: as, b :: bs =>
    if a.toNat < b.toNat then true
    else if b.toNat < a.toNat then false
    else strLeAux as bs

def strLe (a b : String) : Bool := strLeAux a.data b.data

/-- Stable insertion step for insertion sort. -/
def insertSorted {α : Type} (le : α → α → Bool) (x : α) : List α → List α
  | [] => [x]
  | y :: ys => if le x y then x :: y :: ys else y :: insertSorted le x ys

/-- Stable sort (models Array.prototype.sort, which is stable; for the
pairwise-distinct key lists passed to it the algorithm is irrelevant). -/
def sortBy {α : Type} (le : α → α → Bool) : List α → List α
  | [] => []
  | x :: xs => insertSorted le x (sortBy le xs)

def sortStr (l : List String) : List String := sortBy strLe l

def leadsWith : List Char → List Char → Bool
  | [], _ => true
  | _ :: _, [] => false
  | p :: ps, c :: cs => p == c && leadsWith ps cs

def hasSubstrChars (pat : List Char) : List Char → Bool
  | [] => leadsWith pat []
  | c :: rest => leadsWith pat (c :: rest) || hasSubstrChars pat rest

/-- Substring test used to talk about the serialized JSON text. -/
def hasSubstr (s pat : String) : Bool := hasSubstrChars pat.data s.data

def joinComma : List String → String
  | [] => ""
  | [s] => s
  | s :: rest => s ++ "," ++ joinComma rest

/-! ## JSON documents

Mutual inductives (instead of a nested List) so that all serializers are
structurally recursive and hence reduce inside the kernel. -/

mutual
inductive Json where
  | str (s : String)
  | obj (fields : JFields)
  | arr (elems : JArray)
  | undef

inductive JFields where
  | nil
  | cons (k : String) (v : Json) (rest : JFields)

inductive JArray where
  | nil
  | cons (v : Json) (rest : JArray)
end

/-- Build a JFields from a list literal. -/
def jf : List (String × Json) → JFields
  | [] => .nil
  | (k, v) :: rest => .cons k v (jf rest)

def ja : List Json → JArray
  | [] => .nil
  | v :: rest => .cons v (ja rest)

def JFields.keys : JFields → List String
  | .nil => []
  | .cons k _ rest => k :: rest.keys

/-- First field with the given key (JS object properties are unique). -/
def JFields.getF (k : String) : JFields → Option Json
  | .nil => none
  | .cons k0 v rest => if k0 == k then some v else rest.getF k

/-- JSON string escaping as performed by JSON.stringify (QuoteJSONString). -/
def escChar (c : Char) : List Char :=
  if c == Char.ofNat 34 then [Char.ofNat 92, Char.ofNat 34]
  else if c == Char.ofNat 92 then [Char.ofNat 92, Char.ofNat 92]
  else if c == Char.ofNat 10 then [Char.ofNat 92, 'n']
  else if c == Char.ofNat 13 then [Char.ofNat 92, 'r']
  else if c == Char.ofNat 9 then [Char.ofNat 92, 't']
  else if c == Char.ofNat 8 then [Char.ofNat 92, 'b']
  else if c == Char.ofNat 12 then [Char.ofNat 92, 'f']
  else if c.toNat < 32 then
    [Char.ofNat 92, 'u', '0', '0',
     (if c.toNat / 16 < 10 then Char.ofNat (48 + c.toNat / 16) else Char.ofNat (87 + c.toNat / 16)),
     (if c.toNat % 16 < 10 then Char.ofNat (48 + c.toNat % 16) else Char.ofNat (87 + c.toNat % 16))]
  else [c]

def escapeChars : List Char → List Char
  | [] => []
  | c :: rest => escChar c ++ escapeChars rest

def quoteJson (s : String) : String :=
  String.mk (Char.ofNat 34 :: escapeChars s.data ++ [Char.ofNat 34])

/-- Keep, in whitelist order, the parts whose key has a defined serialization;
this realises ECMA-262 SerializeJSONObject when a PropertyList (array
replacer) is in force: it enumerates the PropertyList, reads the property,
and skips properties that are absent or serialize to undefined. -/
def orderParts (ws : List String) (parts : List (String × Option String)) : List String :=
  match ws with
  | [] => []
  | k :: rest =>
    match getA k parts with
    | some (some sv) => (quoteJson k ++ ":" ++ sv) :: orderParts rest parts
    | _ => orderParts rest parts

mutual
/-- ECMA-262 JSON.stringify with an array replacer (PropertyList ws): the
whitelist filters and orders the keys of EVERY object encountered, including
nested ones; array elements are always serialized (undefined becomes null).
Returns none exactly when the value itself serializes to undefined. -/
def serializeVal (ws : List String) : Json → Option String
  | .str s => some (quoteJson s)
  | .obj fs => some ("\x7b" ++ joinComma (orderParts ws (serializeAllFields ws fs)) ++ "\x7d")
  | .arr es => some ("[" ++ joinComma (serializeElems ws es) ++ "]")
  | .undef => none

def serializeAllFields (ws : List String) : JFields → List (String × Option String)
  | .nil => []
  | .cons k v rest => (k, serializeVal ws v) :: serializeAllFields ws rest

def serializeElems (ws : List String) : JArray → List String
  | .nil => []
  | .cons v rest =>
    (match serializeVal ws v with
     | some s => s
     | none => "null") :: serializeElems ws rest
end

def jsonTopKeys : Json → List String
  | .obj fs => fs.keys
  | _ => []

/-- JSON.stringify(data, Object.keys(data).sort()) as written in
LedgerCore.calculateHash and Auditor.calculateEntryHash. -/
def stringifySortedKeys (j : Json) : String :=
  match serializeVal (sortStr (jsonTopKeys j)) j with
  | some s => s
  | none => "undefined"

/-! ### Plain rendering and whitelist filtering (for reasoning about what the
array replacer does to nested objects) -/

def renderParts : List (String × Option String) → List String
  | [] => []
  | (k, some sv) :: rest => (quoteJson k ++ ":" ++ sv) :: renderParts rest
  | (_, none) :: rest => renderParts rest

mutual
/-- Plain JSON.stringify (no replacer): every key of every object is emitted
in insertion order. -/
def renderVal : Json → Option String
  | .str s => some (quoteJson s)
  | .obj fs => some ("\x7b" ++ joinComma (renderParts (renderAllFields fs)) ++ "\x7d")
  | .arr es => some ("[" ++ joinComma (renderElems es) ++ "]")
  | .undef => none

def renderAllFields : JFields → List (String × Option String)
  | .nil => []
  | .cons k v rest => (k, renderVal v) :: renderAllFields rest

def renderElems : JArray → List String
  | .nil => []
  | .cons v rest =>
    (match renderVal v with
     | some s => s
     | none => "null") :: renderElems rest
end

/-- Reorder an (already filtered) field list into whitelist order. -/
def reorderByWs0 (ws : List String) (fs : JFields) : JFields :=
  match ws with
  | [] => .nil
  | k :: rest =>
    match fs.getF k with
    | some v => .cons k v (reorderByWs0 rest fs)
    | none => reorderByWs0 rest fs

mutual
/-- Structural counterpart of the array-replacer whitelist: drop every object
field (at any depth) whose key is not in ws, recursively. -/
def filterVal (ws : List String) : Json → Json
  | .str s => .str s
  | .obj fs => .obj (reorderByWs0 ws (filterFields ws fs))
  | .arr es => .arr (filterElems ws es)
  | .undef => .undef

def filterFields (ws : List String) : JFields → JFields
  | .nil => .nil
  | .cons k v rest =>
    if ws.elem k then .cons k (filterVal ws v) (filterFields ws rest)
    else filterFields ws rest

def filterElems (ws : List String) : JArray → JArray
  | .nil => .nil
  | .cons v rest => .cons (filterVal ws v) (filterElems ws rest)
end

def renderJson (j : Json) : String :=
  match renderVal j with
  | some s => s
  | none => "undefined"

/-! ## SHA-256 (RFC 6234), over UTF-8 bytes, hex output

This is the digest crypto-js computes in calculateHash; words are Nat values
reduced mod 2^32. -/

def M32 : Nat := 4294967296

def wAdd (a b : Nat) : Nat := (a + b) % M32

def rotr (k n : Nat) : Nat := (n / 2 ^ k + (n % 2 ^ k) * 2 ^ (32 - k)) % M32

def shr (k n : Nat) : Nat := n / 2 ^ k

def bsig0 (x : Nat) : Nat := Nat.xor (rotr 2 x) (Nat.xor (rotr 13 x) (rotr 22 x))
def bsig1 (x : Nat) : Nat := Nat.xor (rotr 6 x) (Nat.xor (rotr 11 x) (rotr 25 x))
def ssig0 (x : Nat) : Nat := Nat.xor (rotr 7 x) (Nat.xor (rotr 18 x) (shr 3 x))
def ssig1 (x : Nat) : Nat := Nat.xor (rotr 17 x) (Nat.xor (rotr 19 x) (shr 10 x))
def chf (x y z : Nat) : Nat := Nat.xor (Nat.land x y) (Nat.land (Nat.xor x 4294967295) z)
def majf (x y z : Nat) : Nat := Nat.xor (Nat.land x y) (Nat.xor (Nat.land x z) (Nat.land y z))

def sha256K : List Nat :=
  [1116352408, 1899447441, 3049323471, 3921009573,
   961987163, 1508970993, 2453635748, 2870763221,
   3624381080, 310598401, 607225278, 1426881987,
   1925078388, 2162078206, 2614888103, 3248222580,
   3835390401, 4022224774, 264347078, 604807628,
   770255983, 1249150122, 1555081692, 1996064986,
   2554220882, 2821834349, 2952996808, 3210313671,
   3336571891, 3584528711, 113926993, 338241895,
   666307205, 773529912, 1294757372, 1396182291,
   1695183700, 1986661051, 2177026350, 2456956037,
   2730485921, 2820302411, 3259730800, 3345764771,
   3516065817, 3600352804, 4094571909, 275423344,
   430227734, 506948616, 659060556, 883997877,
   958139571, 1322822218, 1537002063, 1747873779,
   1955562222, 2024104815, 2227730452, 2361852424,
   2428436474, 2756734187, 3204031479, 3329325298]

def padBytes (msg : List Nat) : List Nat :=
  let len := msg.length
  let bitLen := len * 8
  let zeros := (64 - (len + 9) % 64) % 64
  msg ++ [0x80] ++ List.replicate zeros 0 ++
    [bitLen / 2 ^ 56 % 256, bitLen / 2 ^ 48 % 256, bitLen / 2 ^ 40 % 256, bitLen / 2 ^ 32 % 256,
     bitLen / 2 ^ 24 % 256, bitLen / 2 ^ 16 % 256, bitLen / 2 ^ 8 % 256, bitLen % 256]

def toWords : List Nat → List Nat
  | b0 :: b1 :: b2 :: b3 :: rest => (((b0 * 256 + b1) * 256 + b2) * 256 + b3) :: toWords rest
  | _ => []

def toBlocks : List Nat → List (List Nat)
  | w0 :: w1 :: w2 :: w3 :: w4 :: w5 :: w6 :: w7 :: w8 :: w9 :: w10 :: w11 :: w12 :: w13 :: w14 :: w15 :: rest =>
      [w0, w1, w2, w3, w4, w5, w6, w7, w8, w9, w10, w11, w12, w13, w14, w15] :: toBlocks rest
  | _ => []

def expandW (fuel : Nat) (w : List Nat) : List Nat :=
  match fuel with
  | 0 => w
  | fuel + 1 =>
    let n := w.length
    let g := fun i => w.getD (n - i) 0
    let nw := wAdd (ssig1 (g 2)) (wAdd (g 7) (wAdd (ssig0 (g 15)) (g 16)))
    expandW fuel (w ++ [nw])

def roundStep (st : Nat × Nat × Nat × Nat × Nat × Nat × Nat × Nat) (kw : Nat × Nat) :
    Nat × Nat × Nat × Nat × Nat × Nat × Nat × Nat :=
  match st, kw with
  | (a, b, c, d, e, f, g, h), (k, w) =>
    let t1 := wAdd h (wAdd (bsig1 e) (wAdd (chf e f g) (wAdd k w)))
    let t2 := wAdd (bsig0 a) (majf a b c)
    (wAdd t1 t2, a, b, c, wAdd d t1, e, f, g)

def compress (h : List Nat) (block : List Nat) : List Nat :=
  let w := expandW 48 block
  let start : Nat × Nat × Nat × Nat × Nat × Nat × Nat × Nat :=
    (h.getD 0 0, h.getD 1 0, h.getD 2 0, h.getD 3 0, h.getD 4 0, h.getD 5 0, h.getD 6 0, h.getD 7 0)
  let fin := (sha256K.zip w).foldl roundStep start
  match fin with
  | (a, b, c, d, e, f, g, hh) =>
    [wAdd (h.getD 0 0) a, wAdd (h.getD 1 0) b, wAdd (h.getD 2 0) c, wAdd (h.getD 3 0) d,
     wAdd (h.getD 4 0) e, wAdd (h.getD 5 0) f, wAdd (h.getD 6 0) g, wAdd (h.getD 7 0) hh]

def sha256H0 : List Nat :=
  [1779033703, 3144134277, 1013904242, 2773480762,
   1359893119, 2600822924, 528734635, 1541459225]

def hexDigit (n : Nat) : Char :=
  if n < 10 then Char.ofNat (48 + n) else Char.ofNat (87 + n)

def wordHex (w : Nat) : List Char :=
  [hexDigit (w / 2 ^ 28 % 16), hexDigit (w / 2 ^ 24 % 16), hexDigit (w / 2 ^ 20 % 16),
   hexDigit (w / 2 ^ 16 % 16), hexDigit (w / 2 ^ 12 % 16), hexDigit (w / 2 ^ 8 % 16),
   hexDigit (w / 2 ^ 4 % 16), hexDigit (w % 16)]

def utf8Char (c : Char) : List Nat :=
  let n := c.toNat
  if n < 0x80 then [n]
  else if n < 0x800 then [0xC0 + n / 64, 0x80 + n % 64]
  else if n < 0x10000 then [0xE0 + n / 4096, 0x80 + n / 64 % 64, 0x80 + n % 64]
  else [0xF0 + n / 262144, 0x80 + n / 4096 % 64, 0x80 + n / 64 % 64, 0x80 + n % 64]

def utf8Bytes (s : String) : List Nat := s.data.flatMap utf8Char

/-- SHA-256 digest of the UTF-8 bytes of a string, as 64 lowercase hex
characters (CryptoJS.SHA256(s).toString(CryptoJS.enc.Hex)). -/
def sha256Hex (s : String) : String :=
  let blocks := toBlocks (toWords (padBytes (utf8Bytes s)))
  let hf := blocks.foldl compress sha256H0
  String.mk (hf.flatMap wordHex)

/-! ## JS number model: parseFloat, Number#toString, Number#toFixed(2)

parseFloat is modelled as Option Rat: none stands for NaN, and arithmetic on
Option Rat propagates none the way JS arithmetic propagates NaN.  Exponents
and special literals are not modelled (no call site produces them).  The
binary64 rounding of JS numbers is abstracted to exact rationals; every
theorem below evaluates these functions only at values on which binary64
arithmetic is exact, so the abstraction is faithful there. -/

def digitVal (c : Char) : Option Nat :=
  if 48 <= c.toNat && c.toNat <= 57 then some (c.toNat - 48) else none

def takeDigits : List Char → List Nat × List Char
  | [] => ([], [])
  | c :: rest =>
    match digitVal c with
    | some d =>
      let p := takeDigits rest
      (d :: p.1, p.2)
    | none => ([], c :: rest)

def digitsToNat (ds : List Nat) : Nat := ds.foldl (fun acc d => acc * 10 + d) 0

def fracValue (ds : List Nat) : Rat := (digitsToNat ds : Rat) / (10 ^ ds.length : Nat)

def parseUnsigned (cs : List Char) : Option Rat :=
  let p := takeDigits cs
  match p.2 with
  | c :: rest2 =>
    if c == Char.ofNat 46 then
      let q := takeDigits rest2
      if p.1.isEmpty && q.1.isEmpty then none
      else some ((digitsToNat p.1 : Rat) + fracValue q.1)
    else if p.1.isEmpty then none else some (digitsToNat p.1 : Rat)
  | [] => if p.1.isEmpty then none else some (digitsToNat p.1 : Rat)

/-- JS parseFloat on the decimal-literal fragment the ledger produces:
optional sign, digits, optional fraction; trailing garbage is ignored,
an unparseable head yields NaN (none). -/
def jsParseFloat (s : String) : Option Rat :=
  match s.data with
  | [] => none
  | c :: rest =>
    if c == Char.ofNat 45 then (parseUnsigned rest).map (fun q => -q)
    else if c == Char.ofNat 43 then parseUnsigned rest
    else parseUnsigned (c :: rest)

def optAdd : Option Rat → Option Rat → Option Rat
  | some a, some b => some (a + b)
  | _, _ => none

def natDigitsRev (fuel n : Nat) : List Char :=
  match fuel with
  | 0 => []
  | fuel + 1 =>
    if n < 10 then [Char.ofNat (48 + n)]
    else Char.ofNat (48 + n % 10) :: natDigitsRev fuel (n / 10)

def natToStr (n : Nat) : String := String.mk (natDigitsRev (n + 1) n).reverse

def natToStrPad (w n : Nat) : String :=
  String.mk (List.replicate (w - (natDigitsRev (n + 1) n).length) (Char.ofNat 48)) ++ natToStr n

def intToStr (i : Int) : String :=
  (if i < 0 then "-" else "") ++ natToStr i.natAbs

/-- Smallest number of decimal places of a terminating rational, by fuel. -/
def decExp (fuel : Nat) (q : Rat) : Option Nat :=
  match fuel with
  | 0 => none
  | fuel + 1 => if q.den == 1 then some 0 else (decExp fuel (q * 10)).map (· + 1)

/-- ECMA Number::toString for values whose shortest decimal form is their
exact terminating expansion (integers, and the exact sums the theorems use).
A double whose decimal expansion does not terminate within 30 places cannot
arise from the modelled exact arithmetic. -/
def jsNumToStringQ (q : Rat) : String :=
  match decExp 30 q with
  | some 0 => intToStr q.num
  | some k =>
    let m := (q * (10 ^ k : Nat)).num
    (if m < 0 then "-" else "") ++
      natToStr (m.natAbs / 10 ^ k) ++ "." ++ natToStrPad k (m.natAbs % 10 ^ k)
  | none => "?"

def jsNumToString : Option Rat → String
  | none => "NaN"
  | some q => jsNumToStringQ q

/-- Number#toFixed(2): round to two decimal places (ties away from zero;
every call site in the theorems passes an exact multiple of 1/100, where no
rounding happens), rendered with exactly two fraction digits. -/
def toFixed2Q (q : Rat) : String :=
  let n : Int := if q >= 0 then Rat.floor (q * 100 + 1/2) else -Rat.floor (-(q * 100) + 1/2)
  (if n < 0 then "-" else "") ++ natToStr (n.natAbs / 100) ++ "." ++ natToStrPad 2 (n.natAbs % 100)

def toFixed2 : Option Rat → String
  | none => "NaN"
  | some q => toFixed2Q q

/-! ## Data model (src/ledger/types.ts)

TS string-literal unions are carried as String values, exactly as the JS
runtime does.  The owner/account field named type is called otype/atype here
(type is a reserved word here); the JSON builders emit the source key "type". -/

structure SigRecord where
  signer : String
  signature : String
  timestamp : String
  signatureType : String

structure OwnerRef where
  id : String
  otype : String

structure AccountRef where
  id : String
  atype : String
  owner : OwnerRef

structure LedgerEntry where
  id : String
  timestamp : String
  grantCycleId : String
  transactionId : String
  account : AccountRef
  amount : String
  currency : String
  entryType : String
  description : String
  metadata : JFields
  previousHash : Option String
  hash : String
  signatures : List SigRecord
  status : String

structure AuditRecord where
  timestamp : String
  action : String
  actor : String
  details : Option JFields

structure Transaction where
  id : String
  timestamp : String
  grantCycleId : String
  transactionType : String
  description : String
  entries : List LedgerEntry
  totalAmount : String
  currency : String
  policyId : Option String
  requiredSignatures : Nat
  receivedSignatures : List String
  status : String
  executionTimestamp : Option String
  auditTrail : List AuditRecord

structure Balance where
  accountId : String
  balance : String
  currency : String
  asOf : String
  verified : Bool

/-- In-memory singleton state of LedgerCore: three insertion-ordered maps
plus the chain tip. -/
structure LedgerState where
  entries : List (String × LedgerEntry)
  transactions : List (String × Transaction)
  balances : List (String × Balance)
  lastEntryHash : Option String

def emptyState : LedgerState :=
  { entries := [], transactions := [], balances := [], lastEntryHash := none }

/-! Configuration defaults consumed by the core (src/config.ts with the Joi
env-schema defaults: REQUIRED_SIGNATURES=2, ENABLE_MULTI_SIGNATURE=true,
ENABLE_ZK_PROOFS=false, and the hard-coded ledger block). -/

def cfgRequiredSignatures : Nat := 2

def cfgDefaultCurrency : String := "USD"

def cfgSupportedCurrencies : List String := ["USD", "EUR", "GBP", "JPY", "CAD", "AUD"]

def cfgMaxTransactionAmount : String := "1000000000"

def cfgEnableMultiSignature : Bool := true

/-! ## JSON payloads of entries (key order = TS object-literal order) -/

def ownerJson (o : OwnerRef) : Json :=
  .obj (jf [("id", .str o.id), ("type", .str o.otype)])

def accountJson (a : AccountRef) : Json :=
  .obj (jf [("id", .str a.id), ("type", .str a.atype), ("owner", ownerJson a.owner)])

def optStrJson : Option String → Json
  | none => .undef
  | some s => .str s

/-- Signature record as a JSON object.  addSignature pushes literals with key
order signer, signature, timestamp, signatureType; the initial mapping in
createEntry produces signer, signature, signatureType, timestamp instead.  Every
hash computed in this development is over an entry whose signature list is
empty (the only signatures path the core exercises before hashing), so the
two orders cannot be told apart here; this builder uses the addSignature
order. -/
def sigJson (s : SigRecord) : Json :=
  .obj (jf [("signer", .str s.signer), ("signature", .str s.signature),
            ("timestamp", .str s.timestamp), ("signatureType", .str s.signatureType)])

/-- The entryData object assembled in LedgerCore.createEntry (lines 65-77):
the 11 creation-time fields, previousHash last; identical key set and order
to the dataToHash object of Auditor.calculateEntryHash. -/
def entryDataJson (e : LedgerEntry) : Json :=
  .obj (jf [("id", .str e.id), ("timestamp", .str e.timestamp),
            ("grantCycleId", .str e.grantCycleId), ("transactionId", .str e.transactionId),
            ("account", accountJson e.account), ("amount", .str e.amount),
            ("currency", .str e.currency), ("entryType", .str e.entryType),
            ("description", .str e.description), ("metadata", .obj e.metadata),
            ("previousHash", optStrJson e.previousHash)])

/-- The full stored entry as a JSON object: the spread of entryData followed
by hash, signatures and status (LedgerCore.createEntry lines 83-92).  This is
the object LedgerCore.verifyIntegrity hands to calculateHash. -/
def entryFullJson (e : LedgerEntry) : Json :=
  .obj (jf [("id", .str e.id), ("timestamp", .str e.timestamp),
            ("grantCycleId", .str e.grantCycleId), ("transactionId", .str e.transactionId),
            ("account", accountJson e.account), ("amount", .str e.amount),
            ("currency", .str e.currency), ("entryType", .str e.entryType),
            ("description", .str e.description), ("metadata", .obj e.metadata),
            ("previousHash", optStrJson e.previousHash), ("hash", .str e.hash),
            ("signatures", .arr (ja (e.signatures.map sigJson))), ("status", .str e.status)])

/-! ## Pattern checks (the Joi schemas of src/transactions/validation.ts)

Each matcher hand-implements the regular expression or format check the
schema declares; Joi required() strings additionally reject the empty
string.  isIsoDate matches the fixed-width Date#toISOString shape, the only
timestamp format the core produces (Joi accepts further ISO-8601 forms, none
of which occur). -/

def isDigit (c : Char) : Bool := 48 <= c.toNat && c.toNat <= 57

def isUpper (c : Char) : Bool := 65 <= c.toNat && c.toNat <= 90

def isHexChar (c : Char) : Bool :=
  isDigit c || (97 <= c.toNat && c.toNat <= 102) || (65 <= c.toNat && c.toNat <= 70)

def allChars (p : Char → Bool) : List Char → Bool
  | [] => true
  | c :: rest => p c && allChars p rest

/-- Body of ^-?\d+(\.\d\x7b1,2\x7d)?$ after the optional sign. -/
def matchDigitsThenFrac (cs : List Char) : Bool :=
  let p := takeDigits cs
  if p.1.isEmpty then false
  else
    match p.2 with
    | [] => true
    | c :: rest =>
      c == Char.ofNat 46 &&
        (let q := takeDigits rest
         q.2.isEmpty && (q.1.length == 1 || q.1.length == 2))

/-- Entry amount pattern ^-?\d+(\.\d\x7b1,2\x7d)?$. -/
def matchEntryAmount (s : String) : Bool :=
  match s.data with
  | [] => false
  | c :: rest => if c == Char.ofNat 45 then matchDigitsThenFrac rest else matchDigitsThenFrac (c :: rest)

/-- Transaction totalAmount pattern ^\d+(\.\d\x7b1,2\x7d)?$. -/
def matchTotalAmount (s : String) : Bool := matchDigitsThenFrac s.data

/-- Currency pattern ^[A-Z]\x7b3\x7d$. -/
def isCurrency (s : String) : Bool := s.data.length == 3 && allChars isUpper s.data

/-- Hash pattern ^[a-fA-F0-9]\x7b64\x7d$. -/
def isHex64 (s : String) : Bool := s.data.length == 64 && allChars isHexChar s.data

def hexRun : Nat → List Char → Option (List Char)
  | 0, rest => some rest
  | _ + 1, [] => none
  | n + 1, c :: rest => if isHexChar c then hexRun n rest else none

def dashThen : Option (List Char) → Option (List Char)
  | some (c :: rest) => if c == Char.ofNat 45 then some rest else none
  | _ => none

/-- Joi string().uuid(): GUID shape 8-4-4-4-12 of hex digits. -/
def isUuid (s : String) : Bool :=
  match (dashThen ((hexRun 8 s.data))).bind (hexRun 4) |> dashThen |>.bind (hexRun 4) |> dashThen |>.bind (hexRun 4) |> dashThen |>.bind (hexRun 12) with
  | some [] => true
  | _ => false

def charIs (c : Char) : Char → Bool := fun c2 => c2 == c

def matchShape : List (Char → Bool) → List Char → Bool
  | [], [] => true
  | p :: ps, c :: cs => p c && matchShape ps cs
  | _, _ => false

/-- Joi isoDate restricted to the Date#toISOString shape
YYYY-MM-DDTHH:MM:SS.mmmZ. -/
def isIsoDate (s : String) : Bool :=
  matchShape
    [isDigit, isDigit, isDigit, isDigit, charIs (Char.ofNat 45), isDigit, isDigit,
     charIs (Char.ofNat 45), isDigit, isDigit, charIs 'T', isDigit, isDigit, charIs (Char.ofNat 58),
     isDigit, isDigit, charIs (Char.ofNat 58), isDigit, isDigit, charIs (Char.ofNat 46),
     isDigit, isDigit, isDigit, charIs 'Z'] s.data

def nonEmptyStr (s : String) : Bool := !s.data.isEmpty

/-! ## Validator (src/transactions/validation.ts)

Error message texts follow the Joi / source messages closely; only the
valid flag and the identity of each failing check matter to the claims. -/

structure ValidationResult where
  valid : Bool
  errors : List String
  warnings : List String

def sigSchemaErrors (s : SigRecord) : List String :=
  (if nonEmptyStr s.signer then [] else ["\"signer\" is not allowed to be empty"]) ++
  (if nonEmptyStr s.signature then [] else ["\"signature\" is not allowed to be empty"]) ++
  (if isIsoDate s.timestamp then [] else ["\"timestamp\" must be in iso format"]) ++
  (if ["ECDSA", "EdDSA", "RSA"].contains s.signatureType then []
   else ["\"signatureType\" must be one of [ECDSA, EdDSA, RSA]"])

/-- ledgerEntrySchema (validation.ts lines 23-38). -/
def entrySchemaErrors (e : LedgerEntry) : List String :=
  (if isUuid e.id then [] else ["\"id\" must be a valid GUID"]) ++
  (if isIsoDate e.timestamp then [] else ["\"timestamp\" must be in iso format"]) ++
  (if isUuid e.grantCycleId then [] else ["\"grantCycleId\" must be a valid GUID"]) ++
  (if isUuid e.transactionId then [] else ["\"transactionId\" must be a valid GUID"]) ++
  (if nonEmptyStr e.account.id then [] else ["\"account.id\" is not allowed to be empty"]) ++
  (if ["FUNDING", "DISBURSEMENT", "BENEFICIARY", "ADMINISTRATIVE", "RESERVE"].contains e.account.atype
   then [] else ["\"account.type\" must be one of [FUNDING, DISBURSEMENT, BENEFICIARY, ADMINISTRATIVE, RESERVE]"]) ++
  (if nonEmptyStr e.account.owner.id then [] else ["\"account.owner.id\" is not allowed to be empty"]) ++
  (if ["ORGANIZATION", "INDIVIDUAL", "SYSTEM"].contains e.account.owner.otype
   then [] else ["\"account.owner.type\" must be one of [ORGANIZATION, INDIVIDUAL, SYSTEM]"]) ++
  (if matchEntryAmount e.amount then [] else ["\"amount\" with value fails to match the required pattern"]) ++
  (if isCurrency e.currency then [] else ["\"currency\" with value fails to match the required pattern"]) ++
  (if ["DEBIT", "CREDIT", "ADJUSTMENT"].contains e.entryType then []
   else ["\"entryType\" must be one of [DEBIT, CREDIT, ADJUSTMENT]"]) ++
  (if nonEmptyStr e.description && e.description.data.length <= 1000 then []
   else ["\"description\" length must be less than or equal to 1000 characters long"]) ++
  (match e.previousHash with
   | none => []
   | some h => if isHex64 h then [] else ["\"previousHash\" with value fails to match the required pattern"]) ++
  (if isHex64 e.hash then [] else ["\"hash\" with value fails to match the required pattern"]) ++
  (if e.signatures.length >= 1 then e.signatures.flatMap sigSchemaErrors
   else ["\"signatures\" must contain at least 1 items"]) ++
  (if ["PENDING", "CONFIRMED", "REJECTED", "CANCELLED"].contains e.status then []
   else ["\"status\" must be one of [PENDING, CONFIRMED, REJECTED, CANCELLED]"])

def auditRecordErrors (r : AuditRecord) : List String :=
  (if isIsoDate r.timestamp then [] else ["\"timestamp\" must be in iso format"]) ++
  (if nonEmptyStr r.action then [] else ["\"action\" is not allowed to be empty"]) ++
  (if nonEmptyStr r.actor then [] else ["\"actor\" is not allowed to be empty"])

/-- transactionSchema (validation.ts lines 40-62). -/
def txSchemaErrors (t : Transaction) : List String :=
  (if isUuid t.id then [] else ["\"id\" must be a valid GUID"]) ++
  (if isIsoDate t.timestamp then [] else ["\"timestamp\" must be in iso format"]) ++
  (if isUuid t.grantCycleId then [] else ["\"grantCycleId\" must be a valid GUID"]) ++
  (if ["ALLOCATION", "DISBURSEMENT", "RETURN", "ADJUSTMENT", "CLOSURE"].contains t.transactionType
   then [] else ["\"transactionType\" must be one of [ALLOCATION, DISBURSEMENT, RETURN, ADJUSTMENT, CLOSURE]"]) ++
  (if nonEmptyStr t.description && t.description.data.length <= 2000 then []
   else ["\"description\" length must be less than or equal to 2000 characters long"]) ++
  (if t.entries.length >= 2 then [] else ["\"entries\" must contain at least 2 items"]) ++
  t.entries.flatMap entrySchemaErrors ++
  (if matchTotalAmount t.totalAmount then [] else ["\"totalAmount\" with value fails to match the required pattern"]) ++
  (if isCurrency t.currency then [] else ["\"currency\" with value fails to match the required pattern"]) ++
  (match t.policyId with
   | none => []
   | some p => if nonEmptyStr p then [] else ["\"policyId\" is not allowed to be empty"]) ++
  (if 1 <= t.requiredSignatures && t.requiredSignatures <= 10 then []
   else ["\"requiredSignatures\" must be between 1 and 10"]) ++
  (if ["DRAFT", "PENDING_APPROVAL", "APPROVED", "EXECUTED", "REJECTED", "CANCELLED"].contains t.status
   then [] else ["\"status\" must be one of [DRAFT, PENDING_APPROVAL, APPROVED, EXECUTED, REJECTED, CANCELLED]"]) ++
  (match t.executionTimestamp with
   | none => []
   | some ts => if isIsoDate ts then [] else ["\"executionTimestamp\" must be in iso format"]) ++
  t.auditTrail.flatMap auditRecordErrors

/-- Signed balance total over entries: CREDIT counts +1, everything else -1
(parseFloat semantics, NaN-propagating). -/
def signedTotalEntries (es : List LedgerEntry) : Option Rat :=
  es.foldl
    (fun acc e =>
      optAdd acc ((jsParseFloat e.amount).map
        (fun q => q * (if e.entryType == "CREDIT" then 1 else -1)))) (some 0)

/-- Math.abs(total) > 0.01, where a NaN total compares false. -/
def exceedsTol : Option Rat → Bool
  | some s => decide (|s| > (1 : Rat) / 100)
  | none => false

/-- Sum of CREDIT entry magnitudes (validation.ts lines 152-154). -/
def creditTotalEntries (es : List LedgerEntry) : Option Rat :=
  (es.filter (fun e => e.entryType == "CREDIT")).foldl
    (fun acc e => optAdd acc (jsParseFloat e.amount)) (some 0)

/-- Math.abs(calculated - parseFloat(stated)) > 0.01 with NaN comparing
false (validation.ts lines 156-158). -/
def totalMismatch (t : Transaction) : Bool :=
  match optAdd (creditTotalEntries t.entries) ((jsParseFloat t.totalAmount).map (fun q => -q)) with
  | some d => decide (|d| > (1 : Rat) / 100)
  | none => false

def distinctCurrencies (es : List LedgerEntry) : List String :=
  es.foldl (fun acc e => if acc.contains e.currency then acc else acc ++ [e.currency]) []

/-- validateLedgerEntry (validation.ts lines 73-105). -/
def validateLedgerEntry (e : LedgerEntry) : ValidationResult :=
  let errs :=
    entrySchemaErrors e ++
    (match jsParseFloat e.amount with
     | some q => if q <= 0 then ["Amount must be positive"] else []
     | none => []) ++
    (match jsParseFloat e.amount, jsParseFloat cfgMaxTransactionAmount with
     | some q, some m => if q > m then ["Amount exceeds maximum allowed"] else []
     | _, _ => [])
  let warns := if cfgSupportedCurrencies.contains e.currency then []
               else ["Currency " ++ e.currency ++ " is not in supported currencies list"]
  { valid := errs.isEmpty, errors := errs, warnings := warns }

/-- validateTransaction (validation.ts lines 110-165): schema errors, the
balance check, currency uniformity, the per-entry validations (prefixed with
the entry id), and the totalAmount consistency check. -/
def validateTransaction (t : Transaction) : ValidationResult :=
  let errs :=
    txSchemaErrors t ++
    (if exceedsTol (signedTotalEntries t.entries)
     then ["Transaction entries do not balance. Net amount: " ++ jsNumToString (signedTotalEntries t.entries)]
     else []) ++
    (if (distinctCurrencies t.entries).length > 1
     then ["All entries in a transaction must use the same currency"]
     else []) ++
    t.entries.flatMap (fun e => (validateLedgerEntry e).errors.map (fun m => "Entry " ++ e.id ++ ": " ++ m)) ++
    (if totalMismatch t then ["Total amount mismatch"] else [])
  let warns :=
    (if t.receivedSignatures.length > t.requiredSignatures then ["More signatures received than required"] else []) ++
    t.entries.flatMap (fun e => (validateLedgerEntry e).warnings.map (fun m => "Entry " ++ e.id ++ ": " ++ m))
  { valid := errs.isEmpty, errors := errs, warnings := warns }

/-! ## Error kinds raised by LedgerCore (the throw sites of core.ts) -/

inductive LedgerErr where
  | unbalanced (net : String)
  | validationFailed (errs : List String)
  | notFound (id : String)
  | duplicateSigner (signer : String)

def joinCommaSpace : List String → String
  | [] => ""
  | [s] => s
  | s :: rest => s ++ ", " ++ joinCommaSpace rest

/-! ## LedgerCore (src/ledger/core.ts)

Fresh UUIDs and clock readings are passed in explicitly (the id and
timestamp arguments); the state is threaded through every operation. -/

namespace LedgerCore

/-- calculateHash (core.ts lines 403-406):
JSON.stringify(data, Object.keys(data).sort()), then SHA-256 hex. -/
def calculateHash (data : Json) : String := sha256Hex (stringifySortedKeys data)

/-- Arguments of createEntry, in source parameter order. -/
structure EntryArgs where
  grantCycleId : String
  transactionId : String
  accountId : String
  accountType : String
  ownerId : String
  ownerType : String
  amount : String
  currency : String
  entryType : String
  description : String
  metadata : JFields
  sigArgs : List (String × String × String)

/-- createEntry (core.ts lines 38-101): assemble entryData with previousHash
= the current chain tip, hash it, store the finalized PENDING entry and
advance the tip. -/
def createEntry (id timestamp : String) (a : EntryArgs) (st : LedgerState) :
    LedgerEntry × LedgerState :=
  let account : AccountRef :=
    { id := a.accountId, atype := a.accountType,
      owner := { id := a.ownerId, otype := a.ownerType } }
  let e0 : LedgerEntry :=
    { id := id, timestamp := timestamp, grantCycleId := a.grantCycleId,
      transactionId := a.transactionId, account := account, amount := a.amount,
      currency := a.currency, entryType := a.entryType, description := a.description,
      metadata := a.metadata, previousHash := st.lastEntryHash,
      hash := "", signatures := [], status := "" }
  let h := calculateHash (entryDataJson e0)
  let entry : LedgerEntry :=
    { e0 with
      hash := h,
      signatures := a.sigArgs.map (fun s =>
        { signer := s.1, signature := s.2.1, timestamp := timestamp, signatureType := s.2.2 }),
      status := "PENDING" }
  (entry, { st with entries := setA id entry st.entries, lastEntryHash := some h })

/-- Entry descriptor passed to createTransaction (metadata defaulted to the
empty object by the caller when absent). -/
structure EntryDesc where
  accountId : String
  accountType : String
  ownerId : String
  ownerType : String
  amount : String
  currency : String
  entryType : String
  description : String
  metadata : JFields

/-- Balance pre-check total (core.ts lines 127-131): signed sum with CREDIT
multiplier +1 and every other entryType multiplier -1. -/
def descTotal (descs : List EntryDesc) : Option Rat :=
  descs.foldl
    (fun acc d =>
      optAdd acc ((jsParseFloat d.amount).map
        (fun q => q * (if d.entryType == "CREDIT" then 1 else -1)))) (some 0)

/-- The per-descriptor loop of createTransaction (lines 141-162): create and
chain each entry, and accumulate totalAmount over CREDIT descriptors via
(parseFloat(totalAmount) + parseFloat(amount)).toString(). -/
def entriesLoop (txId gcId : String) :
    List (EntryDesc × String × String) → LedgerState → String →
    List LedgerEntry × LedgerState × String
  | [], st, tAmt => ([], st, tAmt)
  | (d, eid, ets) :: rest, st, tAmt =>
    let args : EntryArgs :=
      { grantCycleId := gcId, transactionId := txId, accountId := d.accountId,
        accountType := d.accountType, ownerId := d.ownerId, ownerType := d.ownerType,
        amount := d.amount, currency := d.currency, entryType := d.entryType,
        description := d.description, metadata := d.metadata, sigArgs := [] }
    let p := createEntry eid ets args st
    let tAmt2 :=
      if d.entryType == "CREDIT" then
        jsNumToString (optAdd (jsParseFloat tAmt) (jsParseFloat d.amount))
      else tAmt
    let r := entriesLoop txId gcId rest p.2 tAmt2
    (p.1 :: r.1, r.2.1, r.2.2)

/-- The DRAFT transaction assembled at core.ts lines 165-183 (before
validation): currency from the first entry or the configured default,
requiredSignatures from config, empty receivedSignatures, audit trail seeded
with the CREATED record. -/
def assembleTx (txId txTs gcId txType : String) (entries : List LedgerEntry)
    (tAmt : String) (description : String) (policyId : Option String) : Transaction :=
  { id := txId, timestamp := txTs, grantCycleId := gcId, transactionType := txType,
    description := description, entries := entries, totalAmount := tAmt,
    currency := (match entries.head? with
                 | some e => e.currency
                 | none => cfgDefaultCurrency),
    policyId := policyId, requiredSignatures := cfgRequiredSignatures,
    receivedSignatures := [], status := "DRAFT", executionTimestamp := none,
    auditTrail := [{ timestamp := txTs, action := "CREATED", actor := "system", details := none }] }

/-- createTransaction (core.ts lines 106-197).  The unbalanced check runs
before any entry is created; the validation failure is thrown after the
entries were appended and the tip advanced, and before the transaction is
stored.  freshIds supplies the per-entry (uuid, timestamp) pairs in order. -/
def createTransaction (txId txTs : String) (freshIds : List (String × String))
    (gcId txType : String) (descs : List EntryDesc) (description : String)
    (policyId : Option String) (st : LedgerState) :
    Except LedgerErr Transaction × LedgerState :=
  if exceedsTol (descTotal descs) then
    (.error (.unbalanced (jsNumToString (descTotal descs))), st)
  else
    let r := entriesLoop txId gcId (descs.zip freshIds) st "0"
    let tx := assembleTx txId txTs gcId txType r.1 r.2.2 description policyId
    let v := validateTransaction tx
    if v.valid then
      (.ok tx, { r.2.1 with transactions := setA txId tx r.2.1.transactions })
    else
      (.error (.validationFailed v.errors), r.2.1)

/-- getTransaction (core.ts lines 202-204). -/
def getTransaction (id : String) (st : LedgerState) : Option Transaction :=
  getA id st.transactions

/-- One step of updateBalances (core.ts lines 411-435): fetch or create the
balance record for account:currency, then add +amount for CREDIT and
-amount otherwise, storing the two-decimal rendering. -/
def entryAdjust (nowTs : String) (bs : List (String × Balance)) (e : LedgerEntry) :
    List (String × Balance) :=
  let key := e.account.id ++ ":" ++ e.currency
  let b : Balance :=
    match getA key bs with
    | some b => b
    | none => { accountId := e.account.id, balance := "0", currency := e.currency,
                asOf := nowTs, verified := false }
  let cur := jsParseFloat b.balance
  let amt := jsParseFloat e.amount
  let adj := if e.entryType == "CREDIT" then amt else amt.map (fun q => -q)
  setA key { b with balance := toFixed2 (optAdd cur adj), asOf := nowTs } bs

def updateBalances (nowTs : String) (t : Transaction) (bs : List (String × Balance)) :
    List (String × Balance) :=
  t.entries.foldl (entryAdjust nowTs) bs

/-- updateTransactionStatus (core.ts lines 218-259): unconditionally set the
requested status, append the STATUS_CHANGE audit record, and on EXECUTED set
the execution timestamp, confirm every child entry and update the balances.
The source reads the clock several times within one call; the embedding
passes a single nowTs for all of them. -/
def updateTransactionStatus (txId status actor : String) (details : Option JFields)
    (nowTs : String) (st : LedgerState) : Except LedgerErr Transaction × LedgerState :=
  match getA txId st.transactions with
  | none => (.error (.notFound txId), st)
  | some t =>
    let t1 := { t with
                status := status,
                auditTrail := t.auditTrail ++
                  [{ timestamp := nowTs, action := "STATUS_CHANGE_" ++ status,
                     actor := actor, details := details }] }
    if status == "EXECUTED" then
      let t2 := { t1 with
                  executionTimestamp := some nowTs,
                  entries := t1.entries.map (fun e => { e with status := "CONFIRMED" }) }
      let entries2 := t2.entries.foldl (fun m e => setA e.id e m) st.entries
      let balances2 := updateBalances nowTs t2 st.balances
      (.ok t2, { st with
                 entries := entries2, balances := balances2,
                 transactions := setA txId t2 st.transactions })
    else
      (.ok t1, { st with transactions := setA txId t1 st.transactions })

/-- addSignature (core.ts lines 264-309): reject unknown transactions and
duplicate signers before any mutation; otherwise push the signer, push a
full signature record onto every child entry, and if the received count has
reached requiredSignatures set APPROVED and append ALL_SIGNATURES_RECEIVED. -/
def addSignature (txId signer sigVal sigType nowTs : String) (st : LedgerState) :
    Except LedgerErr Transaction × LedgerState :=
  match getA txId st.transactions with
  | none => (.error (.notFound txId), st)
  | some t =>
    if t.receivedSignatures.contains signer then
      (.error (.duplicateSigner signer), st)
    else
      let t1 := { t with
                  receivedSignatures := t.receivedSignatures ++ [signer],
                  entries := t.entries.map (fun e =>
                    { e with
                      signatures := e.signatures ++
                        [{ signer := signer, signature := sigVal,
                           timestamp := nowTs, signatureType := sigType }] }) }
      let entries2 := t1.entries.foldl (fun m e => setA e.id e m) st.entries
      let t2 :=
        if t1.receivedSignatures.length >= t1.requiredSignatures then
          { t1 with
            status := "APPROVED",
            auditTrail := t1.auditTrail ++
              [{ timestamp := nowTs, action := "ALL_SIGNATURES_RECEIVED",
                 actor := "system", details := none }] }
        else t1
      (.ok t2, { st with entries := entries2, transactions := setA txId t2 st.transactions })

end LedgerCore

/-! ## Auditor (src/verification/auditor.ts) -/

structure VerificationResult where
  valid : Bool
  errors : List String
  warnings : List String

namespace Auditor

/-- calculateEntryHash (auditor.ts lines 210-227): same 11-field dataToHash
object and the same stringify-with-sorted-keys call as entry creation. -/
def calculateEntryHash (e : LedgerEntry) : String :=
  sha256Hex (stringifySortedKeys (entryDataJson e))

/-- verifyEntry (auditor.ts lines 10-63) under the default configuration
(multi-signature checking on, ZK proofs off).  The future-timestamp check
only ever produces a warning and needs a wall clock, so it is elided; the
errors list is unaffected. -/
def verifyEntry (e : LedgerEntry) : VerificationResult :=
  let errs :=
    (if calculateEntryHash e == e.hash then [] else ["Hash verification failed"]) ++
    (if cfgEnableMultiSignature &&
        !(e.signatures.all (fun s => s.signature.data.length > 0))
     then ["Signature verification failed"] else []) ++
    (match jsParseFloat e.amount with
     | none => ["Invalid amount"]
     | some q => if q <= 0 then ["Invalid amount"] else [])
  { valid := errs.isEmpty, errors := errs, warnings := [] }

end Auditor

namespace LedgerCore

/-- The per-entry sweep of verifyIntegrity (core.ts lines 359-378), over the
timestamp-sorted entries: hash-chain linkage, stored hash versus
calculateHash of the FULL entry object, and the signature oracle. -/
def integrityLoop : Option String → List LedgerEntry → List String
  | _, [] => []
  | prev, e :: rest =>
    (match prev with
     | some p => if e.previousHash == some p then [] else ["Hash chain broken at entry " ++ e.id]
     | none => []) ++
    (if calculateHash (entryFullJson e) == e.hash then [] else ["Invalid hash for entry " ++ e.id]) ++
    (let v := Auditor.verifyEntry e
     if v.valid then [] else ["Entry " ++ e.id ++ " failed verification: " ++ joinCommaSpace v.errors]) ++
    integrityLoop (some e.hash) rest

def txBalanceErrors (ts : List Transaction) : List String :=
  ts.flatMap (fun t =>
    if exceedsTol (signedTotalEntries t.entries) then
      ["Transaction " ++ t.id ++ " is unbalanced. Net amount: " ++
       jsNumToString (signedTotalEntries t.entries)]
    else [])

/-- verifyIntegrity (core.ts lines 350-398). -/
def verifyIntegrity (st : LedgerState) : VerificationResult :=
  let sorted := sortBy (fun a b => strLe a.timestamp b.timestamp) (st.entries.map (fun p => p.2))
  let errs := integrityLoop none sorted ++ txBalanceErrors (st.transactions.map (fun p => p.2))
  { valid := errs.isEmpty, errors := errs, warnings := [] }

end LedgerCore

/-! ## What the array replacer does to nested objects

The central structural fact: stringify-with-whitelist equals the plain
(no-replacer) rendering of the document in which every object, at every
depth, has been filtered down to the whitelisted keys in whitelist order. -/

theorem beq_false_of_not_mem_of_mem (ws : List String) (k k0 : String)
    (hk : k ∈ ws) (h0 : k0 ∉ ws) : (k0 == k) = false := by
  cases hbe : (k0 == k) with
  | true => exact absurd ((eq_of_beq hbe) ▸ hk) h0
  | false => rfl

mutual

theorem serializeVal_eq_render (ws : List String) (j : Json) :
    serializeVal ws j = renderVal (filterVal ws j) := by
  cases j with
  | str s => simp [serializeVal, filterVal, renderVal]
  | undef => simp [serializeVal, filterVal, renderVal]
  | arr es => simp [serializeVal, filterVal, renderVal, serializeElems_eq_render ws es]
  | obj fs =>
    have h := orderParts_eq_render ws fs ws (fun k hk => hk)
    simp [serializeVal, filterVal, renderVal, h]

theorem serializeFields_lookup (ws : List String) (fs : JFields) (k : String)
    (hk : k ∈ ws) :
    getA k (serializeAllFields ws fs) = ((filterFields ws fs).getF k).map renderVal := by
  cases fs with
  | nil => simp [serializeAllFields, filterFields, JFields.getF, getA]
  | cons k0 v rest =>
    by_cases h0 : k0 ∈ ws
    · by_cases hke : (k0 == k) = true
      · simp [serializeAllFields, filterFields, h0, getA, JFields.getF, hke,
              serializeVal_eq_render ws v]
      · simp only [Bool.not_eq_true] at hke
        simp [serializeAllFields, filterFields, h0, getA, JFields.getF, hke,
              serializeFields_lookup ws rest k hk]
    · have hne : (k0 == k) = false := beq_false_of_not_mem_of_mem ws k k0 hk h0
      simp [serializeAllFields, filterFields, h0, getA, JFields.getF, hne,
            serializeFields_lookup ws rest k hk]

theorem serializeElems_eq_render (ws : List String) (es : JArray) :
    serializeElems ws es = renderElems (filterElems ws es) := by
  cases es with
  | nil => simp [serializeElems, filterElems, renderElems]
  | cons v rest =>
    simp [serializeElems, filterElems, renderElems, serializeVal_eq_render ws v,
          serializeElems_eq_render ws rest]

theorem orderParts_eq_render (ws : List String) (fs : JFields) (ws2 : List String)
    (hsub : ∀ k, k ∈ ws2 → k ∈ ws) :
    orderParts ws2 (serializeAllFields ws fs) =
      renderParts (renderAllFields (reorderByWs0 ws2 (filterFields ws fs))) := by
  cases ws2 with
  | nil => simp [orderParts, reorderByWs0, renderAllFields, renderParts]
  | cons k rest =>
    have hk : k ∈ ws := hsub k (List.mem_cons_self k rest)
    have hrest : ∀ k2, k2 ∈ rest → k2 ∈ ws := fun k2 h2 => hsub k2 (List.mem_cons_of_mem k h2)
    have hrec := orderParts_eq_render ws fs rest hrest
    rw [orderParts, serializeFields_lookup ws fs k hk, reorderByWs0]
    cases hgf : (filterFields ws fs).getF k with
    | none => simpa [hgf] using hrec
    | some v =>
      cases hrv : renderVal v with
      | none => simp [hgf, hrv, renderAllFields, renderParts, hrec]
      | some sv => simp [hgf, hrv, renderAllFields, renderParts, hrec]

end

/-! ## Claim C2 -/

/-- The sorted top-level key list of every entryData payload (it does not
depend on the field values of the payload). -/
def entryWhitelist : List String :=
  ["account", "amount", "currency", "description", "entryType", "grantCycleId",
   "id", "metadata", "previousHash", "timestamp", "transactionId"]

def c2args : LedgerCore.EntryArgs :=
  { grantCycleId := "gc-1", transactionId := "tx-1", accountId := "acct-1",
    accountType := "FUNDING", ownerId := "org-1", ownerType := "ORGANIZATION",
    amount := "5000.00", currency := "USD", entryType := "CREDIT",
    description := "allocation", metadata := jf [("note", Json.str "memo")], sigArgs := [] }

/-- An entry exactly as createEntry builds it. -/
def c2entry : LedgerEntry :=
  (LedgerCore.createEntry "1f0a6f3a-0000-4000-8000-000000000001"
    "2024-01-01T00:00:00.000Z" c2args emptyState).1

set_option maxRecDepth 40000 in
/-- C2, counterexample: the claim says no key of a nested object is dropped
from the canonical serialization, but for this createEntry-produced payload
the account object has keys id, type, owner and the metadata object has key
note, while the serialized string contains neither an "owner" key nor a
"note" key: the array replacer dropped them. -/
theorem c2_nested_key_dropped :
    jsonTopKeys (accountJson c2entry.account) = ["id", "type", "owner"] ∧
    JFields.keys c2entry.metadata = ["note"] ∧
    hasSubstr (stringifySortedKeys (entryDataJson c2entry)) "\"owner\"" = false ∧
    hasSubstr (stringifySortedKeys (entryDataJson c2entry)) "\"note\"" = false := by
  refine ⟨rfl, rfl, ?_, ?_⟩ <;> decide

/-- C2, amended: the canonical serialization used by the Hasher is JSON whose
top-level keys are sorted lexicographically, but the sorted top-level key
list acts as a whitelist at every depth: the output is the plain JSON
rendering of the payload after every nested object has been filtered down to
keys that also occur at top level (in the whitelist order).  In particular
the serialized account object keeps only its id field — account.type,
account.owner and all metadata keys outside the top-level key set are
dropped from the serialized string. -/
theorem c2_canonical_serialization_amended (e : LedgerEntry) :
    sortStr (jsonTopKeys (entryDataJson e)) = entryWhitelist ∧
    stringifySortedKeys (entryDataJson e) =
      renderJson (filterVal entryWhitelist (entryDataJson e)) ∧
    filterVal entryWhitelist (accountJson e.account) =
      Json.obj (jf [("id", Json.str e.account.id)]) := by
  refine ⟨rfl, ?_, rfl⟩
  have hkeys : sortStr (jsonTopKeys (entryDataJson e)) = entryWhitelist := rfl
  unfold stringifySortedKeys renderJson
  rw [hkeys, serializeVal_eq_render]

/-! ## Claim C4: chain continuity under createEntry -/

/-- The chain-continuity property relative to a starting tip: the first entry
links to the starting tip and each later entry links to the hash of its
immediate predecessor. -/
def chainOk : Option String → List LedgerEntry → Prop
  | _, [] => True
  | tip, e :: rest => e.previousHash = tip ∧ chainOk (some e.hash) rest

/-- The chain tip after appending a list of entries to a given tip. -/
def tipAfter : Option String → List LedgerEntry → Option String
  | t, [] => t
  | _, e :: rest => tipAfter (some e.hash) rest

/-- The entries of the store in insertion (creation) order. -/
def entryVals (st : LedgerState) : List LedgerEntry := st.entries.map (fun p => p.2)

/-- Run a batch of createEntry calls, each with its fresh (uuid, timestamp). -/
def runCreates : List (String × String × LedgerCore.EntryArgs) → LedgerState → LedgerState
  | [], st => st
  | (id, ts, a) :: rest, st => runCreates rest (LedgerCore.createEntry id ts a st).2

theorem getA_none_setA_append {α : Type} (k : String) (v : α) :
    ∀ (l : List (String × α)), getA k l = none → setA k v l = l ++ [(k, v)] := by
  intro l
  induction l with
  | nil => intro _; rfl
  | cons p rest ih =>
    intro h
    rw [getA] at h
    by_cases hk : (p.1 == k) = true
    · rw [if_pos hk] at h; exact absurd h (by simp)
    · simp only [Bool.not_eq_true] at hk
      rw [if_neg (by simp [hk])] at h
      show setA k v (p :: rest) = p :: rest ++ [(k, v)]
      rw [setA.eq_def]
      simp [hk, ih h]

theorem getA_append_single_none {α : Type} (k id : String) (e : α) :
    ∀ (l : List (String × α)), getA k l = none → (id == k) = false →
      getA k (l ++ [(id, e)]) = none := by
  intro l
  induction l with
  | nil => intro _ hne; simp [getA, hne]
  | cons p rest ih =>
    intro h hne
    rw [getA] at h
    by_cases hk : (p.1 == k) = true
    · rw [if_pos hk] at h; exact absurd h (by simp)
    · simp only [Bool.not_eq_true] at hk
      rw [if_neg (by simp [hk])] at h
      show getA k ((p :: rest) ++ [(id, e)]) = none
      rw [List.cons_append, getA, if_neg (by simp [hk])]
      exact ih h hne

theorem chainOk_append (e : LedgerEntry) :
    ∀ (es : List LedgerEntry) (t0 : Option String), chainOk t0 es →
      e.previousHash = tipAfter t0 es → chainOk t0 (es ++ [e]) := by
  intro es
  induction es with
  | nil => intro t0 _ hprev; exact ⟨hprev, trivial⟩
  | cons e0 rest ih =>
    intro t0 hchain hprev
    exact ⟨hchain.1, ih (some e0.hash) hchain.2 hprev⟩

theorem tipAfter_append (e : LedgerEntry) :
    ∀ (es : List LedgerEntry) (t0 : Option String),
      tipAfter t0 (es ++ [e]) = some e.hash := by
  intro es
  induction es with
  | nil => intro t0; rfl
  | cons e0 rest ih => intro t0; exact ih (some e0.hash)

/-- Generalized chain invariant for a run of createEntry calls: it is
preserved from any state whose store already satisfies it, provided the
fresh ids are pairwise distinct and unused. -/
theorem runCreates_chain
    (calls : List (String × String × LedgerCore.EntryArgs)) :
    ∀ (st : LedgerState) (t0 : Option String),
      chainOk t0 (entryVals st) →
      st.lastEntryHash = tipAfter t0 (entryVals st) →
      (∀ p ∈ calls, getA p.1 st.entries = none) →
      (calls.map (fun p => p.1)).Nodup →
      chainOk t0 (entryVals (runCreates calls st)) ∧
        (runCreates calls st).lastEntryHash =
          tipAfter t0 (entryVals (runCreates calls st)) := by
  induction calls with
  | nil => intro st t0 hchain htip _ _; exact ⟨hchain, htip⟩
  | cons c rest ih =>
    intro st t0 hchain htip hfresh hnodup
    obtain ⟨id, ts, a⟩ := c
    have hfresh0 : getA id st.entries = none := hfresh (id, ts, a) (List.mem_cons_self _ _)
    have happend := getA_none_setA_append id
      ((LedgerCore.createEntry id ts a st).1) st.entries hfresh0
    have hvals : entryVals (LedgerCore.createEntry id ts a st).2 =
        entryVals st ++ [(LedgerCore.createEntry id ts a st).1] := by
      show (setA id (LedgerCore.createEntry id ts a st).1 st.entries).map (fun p => p.2) =
        entryVals st ++ [(LedgerCore.createEntry id ts a st).1]
      rw [happend]
      simp [entryVals]
    have hprev : (LedgerCore.createEntry id ts a st).1.previousHash = tipAfter t0 (entryVals st) := by
      show st.lastEntryHash = tipAfter t0 (entryVals st)
      exact htip
    have hchain2 : chainOk t0 (entryVals (LedgerCore.createEntry id ts a st).2) := by
      rw [hvals]
      exact chainOk_append _ (entryVals st) t0 hchain hprev
    have htip2 : (LedgerCore.createEntry id ts a st).2.lastEntryHash =
        tipAfter t0 (entryVals (LedgerCore.createEntry id ts a st).2) := by
      rw [hvals, tipAfter_append]
      rfl
    have hnodup2 := (List.nodup_cons.mp hnodup)
    have hfresh2 : ∀ p ∈ rest, getA p.1 (LedgerCore.createEntry id ts a st).2.entries = none := by
      intro p hp
      show getA p.1 (setA id (LedgerCore.createEntry id ts a st).1 st.entries) = none
      rw [happend]
      apply getA_append_single_none
      · exact hfresh p (List.mem_cons_of_mem _ hp)
      · cases hbe : (id == p.1) with
        | false => rfl
        | true =>
          exact absurd (List.mem_map.mpr ⟨p, hp, (eq_of_beq hbe).symm⟩) hnodup2.1
    exact ih (LedgerCore.createEntry id ts a st).2 t0 hchain2 htip2 hfresh2 hnodup2.2

/-- C4: for every sequence of createEntry calls with fresh (pairwise
distinct) uuids, run from the pristine state, the store in creation order is
hash-chained: the first entry has no previousHash, and the previousHash of
every later entry is the hash of the entry created immediately before it, and
after the run the chain tip lastEntryHash is the hash of the last entry. -/
theorem c4_chain_continuity
    (calls : List (String × String × LedgerCore.EntryArgs))
    (hnodup : (calls.map (fun p => p.1)).Nodup) :
    chainOk none (entryVals (runCreates calls emptyState)) ∧
      (runCreates calls emptyState).lastEntryHash =
        tipAfter none (entryVals (runCreates calls emptyState)) := by
  apply runCreates_chain calls emptyState none
  · exact trivial
  · rfl
  · intro p _; rfl
  · exact hnodup

def c4calls : List (String × String × LedgerCore.EntryArgs) :=
  [("e1", "2024-01-01T00:00:00.000Z", c2args),
   ("e2", "2024-01-01T00:00:01.000Z",
     { c2args with accountId := "acct-2", entryType := "DEBIT" })]

/-- Witness for C4 at a concrete two-call run. -/
theorem c4_chain_continuity_witness :
    (c4calls.map (fun p => p.1)).Nodup ∧
      (chainOk none (entryVals (runCreates c4calls emptyState)) ∧
        (runCreates c4calls emptyState).lastEntryHash =
          tipAfter none (entryVals (runCreates c4calls emptyState))) :=
  ⟨by decide, c4_chain_continuity c4calls (by decide)⟩

/-! ## Claim C5: the unbalanced-entries check -/

def isUnbalancedErr : Except LedgerErr Transaction → Bool
  | .error (.unbalanced _) => true
  | _ => false

/-- The signed sum exactly as the claim spells it: a CREDIT entry contributes
+amount and every other entry type contributes -amount. -/
def claimSignedSum : List (LedgerCore.EntryDesc × Rat) → Rat
  | [] => 0
  | (d, q) :: rest => (if d.entryType == "CREDIT" then q else -q) + claimSignedSum rest

theorem descTotal_go (descs : List LedgerCore.EntryDesc) :
    ∀ (qs : List Rat) (acc : Rat),
      descs.map (fun d => jsParseFloat d.amount) = qs.map some →
      descs.foldl
        (fun acc d =>
          optAdd acc ((jsParseFloat d.amount).map
            (fun q => q * (if d.entryType == "CREDIT" then 1 else -1)))) (some acc)
        = some (acc + claimSignedSum (descs.zip qs)) := by
  induction descs with
  | nil =>
    intro qs acc h
    cases qs with
    | nil => simp [claimSignedSum]
    | cons q qs => simp at h
  | cons d rest ih =>
    intro qs acc h
    cases qs with
    | nil => simp at h
    | cons q qs =>
      simp only [List.map_cons, List.cons.injEq] at h
      obtain ⟨h1, h2⟩ := h
      have hstep : optAdd (some acc) ((jsParseFloat d.amount).map
          (fun q => q * (if d.entryType == "CREDIT" then 1 else -1))) =
          some (acc + (if d.entryType == "CREDIT" then q else -q)) := by
        rw [h1]
        by_cases hc : (d.entryType == "CREDIT") = true
        · simp [optAdd, hc]
        · simp only [Bool.not_eq_true] at hc
          simp [optAdd, hc]
      rw [List.foldl_cons, hstep, ih qs (acc + (if d.entryType == "CREDIT" then q else -q)) h2]
      have hz : (d :: rest).zip (q :: qs) = (d, q) :: rest.zip qs := rfl
      rw [hz]
      simp only [claimSignedSum, Option.some.injEq]
      ring

theorem descTotal_eq_claimSum (descs : List LedgerCore.EntryDesc) (qs : List Rat)
    (hq : descs.map (fun d => jsParseFloat d.amount) = qs.map some) :
    LedgerCore.descTotal descs = some (claimSignedSum (descs.zip qs)) := by
  have h := descTotal_go descs qs 0 hq
  rw [LedgerCore.descTotal, h, zero_add]

/-- C5: createTransaction fails with the UnbalancedEntries error exactly when
the signed sum (CREDIT = +amount, everything else, DEBIT and ADJUSTMENT
alike, = -amount) exceeds 0.01 in absolute value; and when it fails this
way, the returned state is the input state unchanged (no entry appended,
chain tip untouched).  qs lists the parsed amounts of the descriptors. -/
theorem c5_unbalanced_iff
    (txId txTs gcId txType descr : String) (freshIds : List (String × String))
    (pol : Option String) (st : LedgerState)
    (descs : List LedgerCore.EntryDesc) (qs : List Rat)
    (hq : descs.map (fun d => jsParseFloat d.amount) = qs.map some) :
    (isUnbalancedErr
        (LedgerCore.createTransaction txId txTs freshIds gcId txType descs descr pol st).1 = true
      ↔ |claimSignedSum (descs.zip qs)| > (1 : Rat) / 100) ∧
    (|claimSignedSum (descs.zip qs)| > (1 : Rat) / 100 →
      (LedgerCore.createTransaction txId txTs freshIds gcId txType descs descr pol st).2 = st) := by
  have hdt := descTotal_eq_claimSum descs qs hq
  by_cases hbal : |claimSignedSum (descs.zip qs)| > (1 : Rat) / 100
  · have hex : exceedsTol (LedgerCore.descTotal descs) = true := by
      rw [hdt, exceedsTol]
      exact decide_eq_true hbal
    refine ⟨?_, fun _ => ?_⟩
    · rw [LedgerCore.createTransaction, if_pos hex]
      exact ⟨fun _ => hbal, fun _ => rfl⟩
    · rw [LedgerCore.createTransaction, if_pos hex]
  · have hex : exceedsTol (LedgerCore.descTotal descs) = false := by
      rw [hdt, exceedsTol]
      exact decide_eq_false hbal
    refine ⟨⟨fun habs => ?_, fun habs => absurd habs hbal⟩, fun habs => absurd habs hbal⟩
    exfalso
    rw [LedgerCore.createTransaction, if_neg (by simp [hex])] at habs
    dsimp only at habs
    split at habs
    · exact absurd habs (by simp [isUnbalancedErr])
    · exact absurd habs (by simp [isUnbalancedErr])

def c5descs : List LedgerCore.EntryDesc :=
  [{ accountId := "a1", accountType := "FUNDING", ownerId := "o1", ownerType := "ORGANIZATION",
     amount := "100.00", currency := "USD", entryType := "CREDIT", description := "in",
     metadata := JFields.nil },
   { accountId := "a2", accountType := "DISBURSEMENT", ownerId := "o2", ownerType := "ORGANIZATION",
     amount := "50.00", currency := "USD", entryType := "DEBIT", description := "out",
     metadata := JFields.nil }]

unseal Rat.add Rat.mul Rat.sub Rat.inv in
/-- Witness for C5 at a concrete unbalanced pair (net +50). -/
theorem c5_unbalanced_iff_witness :
    (c5descs.map (fun d => jsParseFloat d.amount) = [mkRat 100 1, mkRat 50 1].map some) ∧
    |claimSignedSum (c5descs.zip [mkRat 100 1, mkRat 50 1])| > (1 : Rat) / 100 ∧
    (LedgerCore.createTransaction "t5" "ts5" [] "gc5" "ALLOCATION" c5descs "d" none emptyState).2 =
      emptyState :=
  ⟨by decide, by decide,
    (c5_unbalanced_iff "t5" "ts5" "gc5" "ALLOCATION" "d" [] none emptyState c5descs
      [mkRat 100 1, mkRat 50 1] (by decide)).2 (by decide)⟩

/-! ## Claim C8: addSignature and signature uniqueness -/

/-- The public mutating operations of LedgerCore, with their fresh ids and
clock readings made explicit. -/
inductive LedgerOp where
  | create (id ts : String) (a : LedgerCore.EntryArgs)
  | createTx (txId txTs : String) (freshIds : List (String × String)) (gcId txType : String)
      (descs : List LedgerCore.EntryDesc) (descr : String) (pol : Option String)
  | updStatus (txId status actor : String) (details : Option JFields) (ts : String)
  | addSig (txId signer sigVal sigType ts : String)

def stepOp (st : LedgerState) : LedgerOp → LedgerState
  | .create id ts a => (LedgerCore.createEntry id ts a st).2
  | .createTx txId txTs fids gc ty ds de po =>
      (LedgerCore.createTransaction txId txTs fids gc ty ds de po st).2
  | .updStatus txId s act det ts => (LedgerCore.updateTransactionStatus txId s act det ts st).2
  | .addSig txId sg sv ty ts => (LedgerCore.addSignature txId sg sv ty ts st).2

def runOps : List LedgerOp → LedgerState → LedgerState
  | [], st => st
  | op :: rest, st => runOps rest (stepOp st op)

/-- Every stored transaction has duplicate-free receivedSignatures. -/
def sigsNodup (st : LedgerState) : Prop :=
  ∀ p ∈ st.transactions, p.2.receivedSignatures.Nodup

theorem mem_setA {α : Type} (k : String) (v : α) :
    ∀ (l : List (String × α)) (p : String × α), p ∈ setA k v l → p = (k, v) ∨ p ∈ l := by
  intro l
  induction l with
  | nil =>
    intro p hp
    rw [setA] at hp
    exact Or.inl (List.mem_singleton.mp hp)
  | cons q rest ih =>
    intro p hp
    rw [setA] at hp
    by_cases hk : (q.1 == k) = true
    · rw [if_pos hk] at hp
      rcases List.mem_cons.mp hp with h | h
      · exact Or.inl h
      · exact Or.inr (List.mem_cons_of_mem q h)
    · rw [if_neg hk] at hp
      rcases List.mem_cons.mp hp with h | h
      · exact Or.inr (h ▸ List.mem_cons_self q rest)
      · rcases ih p h with h2 | h2
        · exact Or.inl h2
        · exact Or.inr (List.mem_cons_of_mem q h2)

theorem getA_mem {α : Type} (k : String) :
    ∀ (l : List (String × α)) (v : α), getA k l = some v → (k, v) ∈ l := by
  intro l
  induction l with
  | nil => intro v hv; cases hv
  | cons q rest ih =>
    intro v hv
    rw [getA] at hv
    by_cases hk : (q.1 == k) = true
    · rw [if_pos hk] at hv
      have hq : q = (k, v) := by
        obtain ⟨q1, q2⟩ := q
        have h1 : q1 = k := eq_of_beq hk
        have h2 : q2 = v := Option.some.inj hv
        rw [h1, h2]
      exact hq ▸ List.mem_cons_self q rest
    · rw [if_neg hk] at hv
      exact List.mem_cons_of_mem q (ih v hv)

theorem not_mem_of_contains_false {l : List String} {a : String}
    (h : l.contains a = false) : a ∉ l := by
  intro hm
  have he : l.elem a = true := List.elem_eq_true_of_mem hm
  have h2 : l.elem a = false := h
  rw [he] at h2
  cases h2

theorem nodup_snoc {l : List String} {a : String} (hl : l.Nodup) (ha : a ∉ l) :
    (l ++ [a]).Nodup := by
  simp [List.nodup_append, hl, ha]

theorem entriesLoop_transactions (txId gcId : String) :
    ∀ (items : List (LedgerCore.EntryDesc × String × String)) (st : LedgerState) (t : String),
      (LedgerCore.entriesLoop txId gcId items st t).2.1.transactions = st.transactions := by
  intro items
  induction items with
  | nil => intro st t; rfl
  | cons it rest ih =>
    intro st t
    obtain ⟨d, eid, ets⟩ := it
    rw [LedgerCore.entriesLoop]
    exact ih _ _

theorem sigsNodup_setA (l : List (String × Transaction)) (k : String) (t2 : Transaction)
    (hl : ∀ p ∈ l, p.2.receivedSignatures.Nodup) (h2 : t2.receivedSignatures.Nodup) :
    ∀ p ∈ setA k t2 l, p.2.receivedSignatures.Nodup := by
  intro p hp
  rcases mem_setA k t2 l p hp with h | h
  · rw [h]; exact h2
  · exact hl p h

theorem stepOp_sigsNodup (st : LedgerState) (op : LedgerOp) (h : sigsNodup st) :
    sigsNodup (stepOp st op) := by
  cases op with
  | create id ts a => exact fun p hp => h p hp
  | createTx txId txTs fids gc ty ds de po =>
    show sigsNodup (LedgerCore.createTransaction txId txTs fids gc ty ds de po st).2
    rw [LedgerCore.createTransaction]
    by_cases hex : exceedsTol (LedgerCore.descTotal ds) = true
    · rw [if_pos hex]; exact h
    · rw [if_neg (by simp [hex])]
      dsimp only
      split
      · intro p hp
        have hp2 : p ∈ setA txId
            (LedgerCore.assembleTx txId txTs gc ty
              (LedgerCore.entriesLoop txId gc (ds.zip fids) st "0").1
              (LedgerCore.entriesLoop txId gc (ds.zip fids) st "0").2.2 de po)
            (LedgerCore.entriesLoop txId gc (ds.zip fids) st "0").2.1.transactions := hp
        rw [entriesLoop_transactions] at hp2
        rcases mem_setA _ _ _ p hp2 with hq | hq
        · rw [hq]; exact List.nodup_nil
        · exact h p hq
      · intro p hp
        have hp2 : p ∈ (LedgerCore.entriesLoop txId gc (ds.zip fids) st "0").2.1.transactions := hp
        rw [entriesLoop_transactions] at hp2
        exact h p hp2
  | updStatus txId s act det ts =>
    show sigsNodup (LedgerCore.updateTransactionStatus txId s act det ts st).2
    rw [LedgerCore.updateTransactionStatus]
    cases hg : getA txId st.transactions with
    | none => exact h
    | some t =>
      have ht : t.receivedSignatures.Nodup := h (txId, t) (getA_mem txId st.transactions t hg)
      dsimp only
      split
      · exact sigsNodup_setA st.transactions txId _ h ht
      · exact sigsNodup_setA st.transactions txId _ h ht
  | addSig txId sg sv ty ts =>
    show sigsNodup (LedgerCore.addSignature txId sg sv ty ts st).2
    rw [LedgerCore.addSignature]
    cases hg : getA txId st.transactions with
    | none => exact h
    | some t =>
      have ht : t.receivedSignatures.Nodup := h (txId, t) (getA_mem txId st.transactions t hg)
      dsimp only
      by_cases hc : t.receivedSignatures.contains sg = true
      · rw [if_pos hc]; exact h
      · rw [if_neg hc]
        have hcf : t.receivedSignatures.contains sg = false := by
          cases hb : t.receivedSignatures.contains sg with
          | false => rfl
          | true => exact absurd hb hc
        have hnm : sg ∉ t.receivedSignatures := not_mem_of_contains_false hcf
        have hsnoc : (t.receivedSignatures ++ [sg]).Nodup := nodup_snoc ht hnm
        dsimp only
        split
        · exact sigsNodup_setA st.transactions txId _ h hsnoc
        · exact sigsNodup_setA st.transactions txId _ h hsnoc

theorem runOps_sigsNodup : ∀ (ops : List LedgerOp) (st : LedgerState),
    sigsNodup st → sigsNodup (runOps ops st) := by
  intro ops
  induction ops with
  | nil => intro st h; exact h
  | cons op rest ih => intro st h; exact ih (stepOp st op) (stepOp_sigsNodup st op h)

/-- C8: addSignature fails with DuplicateSigner exactly on an already-present
signer, leaving the state untouched; on success it appends the signer to
receivedSignatures, appends a full signature record to every child entry,
and sets APPROVED plus the ALL_SIGNATURES_RECEIVED audit record exactly when
the new signature count has reached requiredSignatures; consequently (third
conjunct) receivedSignatures never contains a duplicate in any reachable
state. -/
theorem c8_add_signature_props :
    (∀ (st : LedgerState) (txId signer sv ty ts : String) (t : Transaction),
      getA txId st.transactions = some t →
      t.receivedSignatures.contains signer = true →
      LedgerCore.addSignature txId signer sv ty ts st =
        (.error (.duplicateSigner signer), st)) ∧
    (∀ (st : LedgerState) (txId signer sv ty ts : String) (t t2 : Transaction)
        (st2 : LedgerState),
      getA txId st.transactions = some t →
      t.receivedSignatures.contains signer = false →
      LedgerCore.addSignature txId signer sv ty ts st = (.ok t2, st2) →
      (t2.receivedSignatures = t.receivedSignatures ++ [signer] ∧
       t2.entries = t.entries.map (fun e =>
         { e with
           signatures := e.signatures ++
             [{ signer := signer, signature := sv, timestamp := ts, signatureType := ty }] }) ∧
       ((t2.status = "APPROVED" ∧
         t2.auditTrail = t.auditTrail ++
           [{ timestamp := ts, action := "ALL_SIGNATURES_RECEIVED", actor := "system",
              details := none }])
         ↔ t.receivedSignatures.length + 1 >= t.requiredSignatures) ∧
       (t.receivedSignatures.length + 1 < t.requiredSignatures →
         t2.status = t.status ∧ t2.auditTrail = t.auditTrail) ∧
       st2.transactions = setA txId t2 st.transactions)) ∧
    (∀ ops : List LedgerOp, sigsNodup (runOps ops emptyState)) := by
  refine ⟨?_, ?_, ?_⟩
  · intro st txId signer sv ty ts t hget hcon
    rw [LedgerCore.addSignature, hget]
    dsimp only
    rw [if_pos hcon]
  · intro st txId signer sv ty ts t t2 st2 hget hcon heq
    rw [LedgerCore.addSignature, hget] at heq
    dsimp only at heq
    have hcond : ¬ (t.receivedSignatures.contains signer = true) := by
      rw [hcon]; simp
    rw [if_neg hcond] at heq
    have hlen : (t.receivedSignatures ++ [signer]).length = t.receivedSignatures.length + 1 := by
      simp
    by_cases hth : t.receivedSignatures.length + 1 >= t.requiredSignatures
    · rw [if_pos (by simpa [hlen] using hth)] at heq
      have hT := congrArg Prod.fst heq
      have hS := congrArg Prod.snd heq
      simp only [Except.ok.injEq] at hT
      simp only at hS
      rw [← hT, ← hS]
      refine ⟨rfl, rfl, ⟨fun _ => hth, fun _ => ⟨rfl, rfl⟩⟩, fun hlt => absurd hth (by omega), rfl⟩
    · rw [if_neg (by simpa [hlen] using hth)] at heq
      have hT := congrArg Prod.fst heq
      have hS := congrArg Prod.snd heq
      simp only [Except.ok.injEq] at hT
      simp only at hS
      rw [← hT, ← hS]
      refine ⟨rfl, rfl, ⟨?_, fun hge => absurd hge hth⟩, fun _ => ⟨rfl, rfl⟩, rfl⟩
      intro hpair
      exfalso
      have hA := congrArg List.length hpair.2
      simp at hA
  · intro ops
    exact runOps_sigsNodup ops emptyState (fun p hp => absurd hp (List.not_mem_nil p))

def c8tx : Transaction :=
  { id := "11111111-1111-4111-8111-111111111111", timestamp := "2024-01-01T00:00:00.000Z",
    grantCycleId := "22222222-2222-4222-8222-222222222222", transactionType := "ALLOCATION",
    description := "d", entries := [], totalAmount := "0", currency := "USD", policyId := none,
    requiredSignatures := 2, receivedSignatures := ["alice"], status := "PENDING_APPROVAL",
    executionTimestamp := none, auditTrail := [] }

def c8st : LedgerState :=
  { entries := [], transactions := [("t8", c8tx)], balances := [], lastEntryHash := none }

/-- Witness for C8: a duplicate signer is rejected with the state unchanged,
and the uniqueness invariant holds after a concrete run. -/
theorem c8_add_signature_props_witness :
    c8tx.receivedSignatures.contains "alice" = true ∧
    LedgerCore.addSignature "t8" "alice" "sv" "ECDSA" "ts0" c8st =
      (.error (.duplicateSigner "alice"), c8st) ∧
    sigsNodup (runOps [LedgerOp.addSig "t8" "bob" "sv" "ECDSA" "ts0"] emptyState) :=
  ⟨rfl, c8_add_signature_props.1 c8st "t8" "alice" "sv" "ECDSA" "ts0" c8tx rfl rfl,
   c8_add_signature_props.2.2 [LedgerOp.addSig "t8" "bob" "sv" "ECDSA" "ts0"]⟩

/-! ## Claim C6: execution, confirmation and balance updates -/

/-- The BalanceIndex key of an entry, as built in updateBalances. -/
def entryKey (e : LedgerEntry) : String := e.account.id ++ ":" ++ e.currency

/-- The parsed current balance updateBalances starts from: the stored string
if the key is present, otherwise the "0" of the fresh record. -/
def balVal (bs : List (String × Balance)) (key : String) : Option Rat :=
  jsParseFloat (match getA key bs with
                | some b => b.balance
                | none => "0")

/-- The signed adjustment of an entry: +amount for CREDIT, -amount for every
other entry type. -/
def signedAmt (e : LedgerEntry) : Option Rat :=
  if e.entryType == "CREDIT" then jsParseFloat e.amount
  else (jsParseFloat e.amount).map (fun q => -q)

theorem getA_setA_self {α : Type} (k : String) (v : α) :
    ∀ l : List (String × α), getA k (setA k v l) = some v := by
  intro l
  induction l with
  | nil => simp [setA, getA]
  | cons q rest ih =>
    rw [setA]
    by_cases hk : (q.1 == k) = true
    · rw [if_pos hk, getA, if_pos (by simp)]
    · rw [if_neg hk, getA, if_neg hk]
      exact ih

theorem getA_setA_ne {α : Type} (k key : String) (v : α) (h : (k == key) = false) :
    ∀ l : List (String × α), getA key (setA k v l) = getA key l := by
  intro l
  induction l with
  | nil => simp [setA, getA, h]
  | cons q rest ih =>
    rw [setA]
    by_cases hk : (q.1 == k) = true
    · rw [if_pos hk, getA, getA]
      have hqk : (q.1 == key) = false := by
        rw [eq_of_beq hk]; exact h
      simp [h, hqk]
    · rw [if_neg hk, getA, getA]
      by_cases hq : (q.1 == key) = true
      · rw [if_pos hq, if_pos hq]
      · rw [if_neg hq, if_neg hq]
        exact ih

theorem str_beq_false_of_ne {a b : String} (h : a ≠ b) : (a == b) = false := by
  cases hb : (a == b) with
  | true => exact absurd (eq_of_beq hb) h
  | false => rfl

theorem getA_entryAdjust_ne (ts key : String) (bs : List (String × Balance)) (e2 : LedgerEntry)
    (h : entryKey e2 ≠ key) :
    getA key (LedgerCore.entryAdjust ts bs e2) = getA key bs := by
  rw [LedgerCore.entryAdjust]
  exact getA_setA_ne (entryKey e2) key _ (str_beq_false_of_ne h) bs

theorem getA_entryAdjust_self (ts : String) (bs : List (String × Balance)) (e : LedgerEntry) :
    (getA (entryKey e) (LedgerCore.entryAdjust ts bs e)).map Balance.balance =
      some (toFixed2 (optAdd (balVal bs (entryKey e)) (signedAmt e))) := by
  rw [LedgerCore.entryAdjust]
  simp only [entryKey]
  cases hb : getA (e.account.id ++ ":" ++ e.currency) bs with
  | none =>
    rw [getA_setA_self]
    simp [balVal, signedAmt, entryKey, hb]
  | some b =>
    rw [getA_setA_self]
    simp [balVal, signedAmt, entryKey, hb]

theorem foldl_adjust_skip (ts : String) :
    ∀ (es : List LedgerEntry) (bs : List (String × Balance)) (key : String),
      (∀ e2 ∈ es, entryKey e2 ≠ key) →
      getA key (es.foldl (LedgerCore.entryAdjust ts) bs) = getA key bs := by
  intro es
  induction es with
  | nil => intro bs key _; rfl
  | cons e0 rest ih =>
    intro bs key hne
    rw [List.foldl_cons]
    rw [ih (LedgerCore.entryAdjust ts bs e0) key (fun e2 h2 => hne e2 (List.mem_cons_of_mem e0 h2))]
    exact getA_entryAdjust_ne ts key bs e0 (hne e0 (List.mem_cons_self e0 rest))

theorem foldl_adjust_main (ts : String) :
    ∀ (es : List LedgerEntry) (bs : List (String × Balance)) (e : LedgerEntry),
      e ∈ es → (es.map entryKey).Nodup →
      (getA (entryKey e) (es.foldl (LedgerCore.entryAdjust ts) bs)).map Balance.balance =
        some (toFixed2 (optAdd (balVal bs (entryKey e)) (signedAmt e))) := by
  intro es
  induction es with
  | nil => intro bs e he _; cases he
  | cons e0 rest ih =>
    intro bs e he hnd
    have hnd0 : (entryKey e0 :: rest.map entryKey).Nodup := by
      rw [List.map_cons] at hnd
      exact hnd
    have hnd2 := List.nodup_cons.mp hnd0
    rw [List.foldl_cons]
    rcases List.mem_cons.mp he with h | h
    · subst h
      have hskip : ∀ e2 ∈ rest, entryKey e2 ≠ entryKey e := by
        intro e2 h2 habs
        exact hnd2.1 (habs ▸ List.mem_map.mpr ⟨e2, h2, rfl⟩)
      rw [foldl_adjust_skip ts rest (LedgerCore.entryAdjust ts bs e) (entryKey e) hskip]
      exact getA_entryAdjust_self ts bs e
    · have hne : entryKey e0 ≠ entryKey e := by
        intro habs
        exact hnd2.1 (habs ▸ List.mem_map.mpr ⟨e, h, rfl⟩)
      have hbv : balVal (LedgerCore.entryAdjust ts bs e0) (entryKey e) = balVal bs (entryKey e) := by
        rw [balVal, balVal, getA_entryAdjust_ne ts (entryKey e) bs e0 hne]
      rw [ih (LedgerCore.entryAdjust ts bs e0) e h hnd2.2, hbv]

/-- C6, amended: a single updateTransactionStatus call with status EXECUTED
sets the execution timestamp, confirms every child entry, keeps the entry
ids, and adjusts the balance at the (account,currency) key of each child entry by
+amount for CREDIT and -amount for every other entry type — each child entry
contributing exactly once per EXECUTED call.  (The unguarded state machine
lets EXECUTED be applied again, contributing again: see the counterexample.)
The hypothesis asks the balance keys of the entries to be pairwise distinct. -/
theorem c6_executed_updates_amended
    (txId actor ts : String) (det : Option JFields) (st : LedgerState)
    (t t2 : Transaction) (st2 : LedgerState)
    (hget : getA txId st.transactions = some t)
    (heq : LedgerCore.updateTransactionStatus txId "EXECUTED" actor det ts st = (.ok t2, st2))
    (hkeys : (t.entries.map entryKey).Nodup) :
    t2.status = "EXECUTED" ∧
    t2.executionTimestamp = some ts ∧
    (∀ e ∈ t2.entries, e.status = "CONFIRMED") ∧
    t2.entries.map (fun e => e.id) = t.entries.map (fun e => e.id) ∧
    (∀ e ∈ t.entries,
      (getA (entryKey e) st2.balances).map Balance.balance =
        some (toFixed2 (optAdd (balVal st.balances (entryKey e)) (signedAmt e)))) := by
  rw [LedgerCore.updateTransactionStatus, hget] at heq
  dsimp only at heq
  rw [if_pos (by rfl)] at heq
  have hT := congrArg Prod.fst heq
  have hS := congrArg Prod.snd heq
  simp only [Except.ok.injEq] at hT
  simp only at hS
  rw [← hT, ← hS]
  refine ⟨rfl, rfl, ?_, ?_, ?_⟩
  · intro e he
    rcases List.mem_map.mp he with ⟨e0, _, hrw⟩
    rw [← hrw]
  · rw [List.map_map]; rfl
  · intro e he
    show (getA (entryKey e)
      (LedgerCore.updateBalances ts _ st.balances)).map Balance.balance = _
    rw [LedgerCore.updateBalances]
    have hmem : ({ e with status := "CONFIRMED" } : LedgerEntry) ∈
        t.entries.map (fun e => ({ e with status := "CONFIRMED" } : LedgerEntry)) :=
      List.mem_map.mpr ⟨e, he, rfl⟩
    have hnd : ((t.entries.map (fun e => ({ e with status := "CONFIRMED" } : LedgerEntry))).map
        entryKey).Nodup := by
      rw [List.map_map]
      exact hkeys
    have := foldl_adjust_main ts
      (t.entries.map (fun e => ({ e with status := "CONFIRMED" } : LedgerEntry)))
      st.balances ({ e with status := "CONFIRMED" }) hmem hnd
    exact this

def c6e1 : LedgerEntry :=
  { id := "e61", timestamp := "2024-01-01T00:00:00.000Z", grantCycleId := "gc6",
    transactionId := "t6",
    account := { id := "a1", atype := "FUNDING", owner := { id := "o1", otype := "ORGANIZATION" } },
    amount := "1000.00", currency := "USD", entryType := "CREDIT", description := "in",
    metadata := JFields.nil, previousHash := none, hash := "h1", signatures := [],
    status := "PENDING" }

def c6e2 : LedgerEntry :=
  { id := "e62", timestamp := "2024-01-01T00:00:01.000Z", grantCycleId := "gc6",
    transactionId := "t6",
    account := { id := "a2", atype := "DISBURSEMENT",
                 owner := { id := "o2", otype := "ORGANIZATION" } },
    amount := "1000.00", currency := "USD", entryType := "DEBIT", description := "out",
    metadata := JFields.nil, previousHash := some "h1", hash := "h2", signatures := [],
    status := "PENDING" }

def c6tx : Transaction :=
  { id := "t6", timestamp := "2024-01-01T00:00:00.000Z", grantCycleId := "gc6",
    transactionType := "ALLOCATION", description := "alloc", entries := [c6e1, c6e2],
    totalAmount := "1000.00", currency := "USD", policyId := none, requiredSignatures := 2,
    receivedSignatures := ["alice", "bob"], status := "APPROVED", executionTimestamp := none,
    auditTrail := [] }

def c6st : LedgerState :=
  { entries := [("e61", c6e1), ("e62", c6e2)], transactions := [("t6", c6tx)],
    balances := [], lastEntryHash := some "h2" }

def c6res := LedgerCore.updateTransactionStatus "t6" "EXECUTED" "ops" none
  "2024-01-02T00:00:00.000Z" c6st

def c6st2 := (LedgerCore.updateTransactionStatus "t6" "EXECUTED" "ops" none
  "2024-01-03T00:00:00.000Z" c6res.2).2

unseal Rat.add Rat.mul Rat.sub Rat.inv in
/-- C6, counterexample: updateTransactionStatus has no transition guard, so a
second EXECUTED call replays the balance adjustment: after executing the
same 1000.00 CREDIT/DEBIT transaction twice, account a1 holds 2000.00, so
over the lifetime of the transaction each child entry contributed twice to the
BalanceIndex, not exactly once. -/
theorem c6_double_execution_double_counts :
    (getA "a1:USD" c6st2.balances).map Balance.balance = some "2000.00" ∧
    ¬ (getA "a1:USD" c6st2.balances).map Balance.balance = some "1000.00" ∧
    (getA "a2:USD" c6st2.balances).map Balance.balance = some "-2000.00" := by
  refine ⟨by decide, by decide, by decide⟩

def c6t2 : Transaction :=
  match c6res.1 with
  | .ok t => t
  | .error _ => c6tx

unseal Rat.add Rat.mul Rat.sub Rat.inv in
/-- Witness for the amended C6 at a single concrete EXECUTED call. -/
theorem c6_executed_updates_amended_witness :
    getA "t6" c6st.transactions = some c6tx ∧
    (c6tx.entries.map entryKey).Nodup ∧
    (∀ e ∈ c6tx.entries,
      (getA (entryKey e) c6res.2.balances).map Balance.balance =
        some (toFixed2 (optAdd (balVal c6st.balances (entryKey e)) (signedAmt e)))) :=
  ⟨rfl, by decide,
    (c6_executed_updates_amended "t6" "ops" "2024-01-02T00:00:00.000Z" none c6st c6tx c6t2
      c6res.2 rfl (by rfl) (by decide)).2.2.2.2⟩

/-! ## Claim C9: no transition guards on the state machine -/

def c9txA : Transaction :=
  { c6tx with
    id := "t9a", status := "EXECUTED",
    executionTimestamp := some "2024-01-02T00:00:00.000Z" }

def c9txB : Transaction :=
  { c6tx with
    id := "t9b", status := "REJECTED", requiredSignatures := 1,
    receivedSignatures := [] }

def c9st : LedgerState :=
  { entries := [], transactions := [("t9a", c9txA), ("t9b", c9txB)], balances := [],
    lastEntryHash := none }

/-- C9: terminal states are not terminal in the code.  updateTransactionStatus
sets any requested status with no guard, so an EXECUTED transaction moves
back to DRAFT; and addSignature on a REJECTED transaction flips it to
APPROVED once the signature count reaches the threshold.  Both transitions
are outside the approval state machine the claim describes. -/
theorem c9_terminal_state_escaped :
    (getA "t9a" (LedgerCore.updateTransactionStatus "t9a" "DRAFT" "x" none
        "2024-01-03T00:00:00.000Z" c9st).2.transactions).map Transaction.status =
      some "DRAFT" ∧
    (getA "t9b" (LedgerCore.addSignature "t9b" "carol" "sigbytes" "ECDSA"
        "2024-01-03T00:00:00.000Z" c9st).2.transactions).map Transaction.status =
      some "APPROVED" := by
  refine ⟨by decide, by decide⟩

/-! ## Claim C7: the totalAmount accumulation -/

def c7descs : List LedgerCore.EntryDesc :=
  [{ accountId := "account-1", accountType := "FUNDING", ownerId := "org-1",
     ownerType := "ORGANIZATION", amount := "1000.00", currency := "USD",
     entryType := "CREDIT", description := "Funds allocated", metadata := JFields.nil },
   { accountId := "account-2", accountType := "DISBURSEMENT", ownerId := "org-2",
     ownerType := "ORGANIZATION", amount := "1000.00", currency := "USD",
     entryType := "DEBIT", description := "Funds received", metadata := JFields.nil }]

def c7ids : List (String × String) :=
  [("e71", "2024-01-01T00:00:00.000Z"), ("e72", "2024-01-01T00:00:01.000Z")]

unseal Rat.add Rat.mul Rat.sub Rat.inv in
/-- C7: on the own test input of the repository (a 1000.00 CREDIT balanced by a
1000.00 DEBIT), the totalAmount accumulated by the createTransaction loop is
the Number#toString rendering "1000", not the two-decimal fixed-point
"1000.00" the test (and spec) expect; the string does still match the
transaction-total pattern here, so the mismatch is also invisible to the
validator. -/
theorem c7_total_amount_not_two_decimals :
    (LedgerCore.entriesLoop "t7" "gc7" (c7descs.zip c7ids) emptyState "0").2.2 = "1000" ∧
    ¬ (LedgerCore.entriesLoop "t7" "gc7" (c7descs.zip c7ids) emptyState "0").2.2 = "1000.00" ∧
    matchTotalAmount "1000" = true := by
  refine ⟨by decide, by decide, by decide⟩

/-! ## Claim C1: verifyIntegrity rejects its own untampered entries -/

def c1st : LedgerState := runCreates c4calls emptyState

def c1res : VerificationResult := LedgerCore.verifyIntegrity c1st

set_option maxRecDepth 1000000 in
set_option maxHeartbeats 4000000 in
unseal Rat.add Rat.mul Rat.sub Rat.inv in
/-- C1: a ledger holding exactly two entries produced by createEntry and
never touched afterwards fails verifyIntegrity with an InvalidHash error for
EVERY entry: verifyIntegrity recomputes calculateHash over the full stored
entry, whose key list (the stringify whitelist) now includes hash,
signatures and status, so the recomputed digest can never equal the stored
one.  The error list is exactly the two Invalid-hash messages: the chain
linkage and the recomputation of the auditor (which uses the creation-time
payload) both pass. -/
theorem c1_invalid_hash_emitted :
    c1res.valid = false ∧
    c1res.errors = ["Invalid hash for entry e1", "Invalid hash for entry e2"] := by
  refine ⟨by decide, by decide⟩

/-! ## Claim C3: the simple-allocation end-to-end flow -/

def c3descs : List LedgerCore.EntryDesc :=
  [{ accountId := "funding-1", accountType := "FUNDING", ownerId := "org-1",
     ownerType := "ORGANIZATION", amount := "5000.00", currency := "USD",
     entryType := "CREDIT", description := "Allocation credit", metadata := JFields.nil },
   { accountId := "disb-1", accountType := "DISBURSEMENT", ownerId := "gov",
     ownerType := "ORGANIZATION", amount := "5000.00", currency := "USD",
     entryType := "DEBIT", description := "Allocation debit", metadata := JFields.nil }]

def c3gc : String := "33333333-3333-4333-8333-333333333333"

def c3txid : String := "44444444-4444-4444-8444-444444444444"

def c3ids : List (String × String) :=
  [("55555555-5555-4555-8555-555555555555", "2024-01-01T00:00:00.000Z"),
   ("66666666-6666-4666-8666-666666666666", "2024-01-01T00:00:01.000Z")]

def c3run : Except LedgerErr Transaction × LedgerState :=
  LedgerCore.createTransaction c3txid "2024-01-01T00:00:00.000Z" c3ids c3gc "ALLOCATION"
    c3descs "Simple allocation" none emptyState

def isValidationFailure : Except LedgerErr Transaction → Bool
  | .error (.validationFailed _) => true
  | _ => false

def errsOf : Except LedgerErr Transaction → List String
  | .error (.validationFailed es) => es
  | _ => []

set_option maxRecDepth 1000000 in
set_option maxHeartbeats 4000000 in
unseal Rat.add Rat.mul Rat.sub Rat.inv in
/-- C3: the simple-allocation flow of the spec does not succeed.  The balance
check passes and the two entries are chained, but validateTransaction
reports the ledgerEntrySchema violation "signatures must contain at least 1
items" for the freshly created (signature-less) entries, so createTransaction
throws and stores no transaction; moreover the totalAmount the loop
accumulated for the would-be transaction is "5000", not the expected
"5000.00". -/
theorem c3_create_transaction_throws :
    isValidationFailure c3run.1 = true ∧
    (errsOf c3run.1).contains "\"signatures\" must contain at least 1 items" = true ∧
    (LedgerCore.getTransaction c3txid c3run.2).isNone = true ∧
    (LedgerCore.entriesLoop c3txid c3gc (c3descs.zip c3ids) emptyState "0").2.2 = "5000" := by
  refine ⟨by decide, by decide, by decide, by decide⟩

/-! ## Claim C10: a validation failure keeps the appended entries -/

theorem entriesLoop_state (txId gcId : String) :
    ∀ (items : List (LedgerCore.EntryDesc × String × String)) (st : LedgerState) (tAmt : String),
      (∀ p ∈ items, getA p.2.1 st.entries = none) →
      (items.map (fun p => p.2.1)).Nodup →
      (LedgerCore.entriesLoop txId gcId items st tAmt).2.1.entries =
        st.entries ++
          (items.map (fun p => p.2.1)).zip (LedgerCore.entriesLoop txId gcId items st tAmt).1 ∧
      (LedgerCore.entriesLoop txId gcId items st tAmt).2.1.lastEntryHash =
        tipAfter st.lastEntryHash (LedgerCore.entriesLoop txId gcId items st tAmt).1 ∧
      (LedgerCore.entriesLoop txId gcId items st tAmt).1.length = items.length := by
  intro items
  induction items with
  | nil =>
    intro st tAmt _ _
    refine ⟨by simp [LedgerCore.entriesLoop], rfl, rfl⟩
  | cons it rest ih =>
    intro st tAmt hfresh hnodup
    obtain ⟨d, eid, ets⟩ := it
    have hfresh0 : getA eid st.entries = none := hfresh (d, eid, ets) (List.mem_cons_self _ _)
    have hnodup0 : (eid :: rest.map (fun p => p.2.1)).Nodup := by
      rw [List.map_cons] at hnodup
      exact hnodup
    have hnodup2 := List.nodup_cons.mp hnodup0
    rw [LedgerCore.entriesLoop]
    dsimp only
    set args : LedgerCore.EntryArgs :=
      { grantCycleId := gcId, transactionId := txId, accountId := d.accountId,
        accountType := d.accountType, ownerId := d.ownerId, ownerType := d.ownerType,
        amount := d.amount, currency := d.currency, entryType := d.entryType,
        description := d.description, metadata := d.metadata, sigArgs := [] } with hargs
    have happend := getA_none_setA_append eid
      ((LedgerCore.createEntry eid ets args st).1) st.entries hfresh0
    have hentries : (LedgerCore.createEntry eid ets args st).2.entries =
        st.entries ++ [(eid, (LedgerCore.createEntry eid ets args st).1)] := happend
    have hfresh2 : ∀ p ∈ rest, getA p.2.1 (LedgerCore.createEntry eid ets args st).2.entries = none := by
      intro p hp
      rw [hentries]
      apply getA_append_single_none
      · exact hfresh p (List.mem_cons_of_mem _ hp)
      · cases hbe : (eid == p.2.1) with
        | false => rfl
        | true =>
          exact absurd (List.mem_map.mpr ⟨p, hp, (eq_of_beq hbe).symm⟩) hnodup2.1
    have hr := ih (LedgerCore.createEntry eid ets args st).2
      (if d.entryType == "CREDIT" then
        jsNumToString (optAdd (jsParseFloat tAmt) (jsParseFloat d.amount))
       else tAmt) hfresh2 hnodup2.2
    refine ⟨?_, ?_, ?_⟩
    · show (LedgerCore.entriesLoop txId gcId rest _ _).2.1.entries = _
      rw [hr.1, hentries]
      simp [List.append_assoc]
    · show (LedgerCore.entriesLoop txId gcId rest _ _).2.1.lastEntryHash = _
      rw [hr.2.1]
      rfl
    · show ((LedgerCore.entriesLoop txId gcId rest _ _).1.length + 1) = rest.length + 1
      rw [hr.2.2]

/-- C10: when the post-assembly validation fails, createTransaction surfaces
the full validation error list, stores no transaction (the fresh id resolves
to nothing), but keeps every entry appended in step 2 and leaves the chain
tip at the hash of the last appended entry: the chain is not rewound. -/
theorem c10_validation_failure_keeps_entries
    (txId txTs gcId txType descr : String) (freshIds : List (String × String))
    (pol : Option String) (st : LedgerState) (descs : List LedgerCore.EntryDesc)
    (hbal : exceedsTol (LedgerCore.descTotal descs) = false)
    (hval : (validateTransaction (LedgerCore.assembleTx txId txTs gcId txType
        (LedgerCore.entriesLoop txId gcId (descs.zip freshIds) st "0").1
        (LedgerCore.entriesLoop txId gcId (descs.zip freshIds) st "0").2.2 descr pol)).valid
        = false)
    (hfreshTx : (getA txId st.transactions).isNone = true)
    (hfresh : ∀ p ∈ descs.zip freshIds, (getA p.2.1 st.entries).isNone = true)
    (hnodup : ((descs.zip freshIds).map (fun p => p.2.1)).Nodup) :
    (LedgerCore.createTransaction txId txTs freshIds gcId txType descs descr pol st).1 =
      .error (.validationFailed (validateTransaction (LedgerCore.assembleTx txId txTs gcId txType
        (LedgerCore.entriesLoop txId gcId (descs.zip freshIds) st "0").1
        (LedgerCore.entriesLoop txId gcId (descs.zip freshIds) st "0").2.2 descr pol)).errors) ∧
    (LedgerCore.createTransaction txId txTs freshIds gcId txType descs descr pol st).2.transactions
      = st.transactions ∧
    LedgerCore.getTransaction txId
      (LedgerCore.createTransaction txId txTs freshIds gcId txType descs descr pol st).2 = none ∧
    (LedgerCore.createTransaction txId txTs freshIds gcId txType descs descr pol st).2.entries =
      st.entries ++ ((descs.zip freshIds).map (fun p => p.2.1)).zip
        (LedgerCore.entriesLoop txId gcId (descs.zip freshIds) st "0").1 ∧
    (LedgerCore.createTransaction txId txTs freshIds gcId txType descs descr pol st).2.lastEntryHash
      = tipAfter st.lastEntryHash (LedgerCore.entriesLoop txId gcId (descs.zip freshIds) st "0").1 ∧
    (LedgerCore.entriesLoop txId gcId (descs.zip freshIds) st "0").1.length =
      (descs.zip freshIds).length := by
  have hres : LedgerCore.createTransaction txId txTs freshIds gcId txType descs descr pol st =
      (.error (.validationFailed (validateTransaction (LedgerCore.assembleTx txId txTs gcId txType
          (LedgerCore.entriesLoop txId gcId (descs.zip freshIds) st "0").1
          (LedgerCore.entriesLoop txId gcId (descs.zip freshIds) st "0").2.2 descr pol)).errors),
        (LedgerCore.entriesLoop txId gcId (descs.zip freshIds) st "0").2.1) := by
    rw [LedgerCore.createTransaction, if_neg (by simp [hbal])]
    dsimp only
    rw [if_neg (by simp [hval])]
  have hst := entriesLoop_state txId gcId (descs.zip freshIds) st "0"
    (fun p hp => Option.isNone_iff_eq_none.mp (hfresh p hp)) hnodup
  rw [hres]
  refine ⟨rfl, entriesLoop_transactions txId gcId (descs.zip freshIds) st "0", ?_, hst.1, hst.2.1, hst.2.2⟩
  show getA txId (LedgerCore.entriesLoop txId gcId (descs.zip freshIds) st "0").2.1.transactions = none
  rw [entriesLoop_transactions]
  exact Option.isNone_iff_eq_none.mp hfreshTx

def c10descs : List LedgerCore.EntryDesc :=
  [{ accountId := "x", accountType := "FUNDING", ownerId := "u", ownerType := "ORGANIZATION",
     amount := "1.00", currency := "USD", entryType := "CREDIT", description := "a",
     metadata := JFields.nil },
   { accountId := "y", accountType := "DISBURSEMENT", ownerId := "v", ownerType := "ORGANIZATION",
     amount := "1.00", currency := "USD", entryType := "DEBIT", description := "b",
     metadata := JFields.nil }]

def c10ids : List (String × String) := [("p", "t1"), ("q", "t2")]

set_option maxRecDepth 1000000 in
set_option maxHeartbeats 4000000 in
unseal Rat.add Rat.mul Rat.sub Rat.inv in
/-- Witness for C10 at a concrete balanced-but-invalid run from the empty
state: validation fails, yet the transaction map stays empty while the two
entries were appended. -/
theorem c10_validation_failure_keeps_entries_witness :
    exceedsTol (LedgerCore.descTotal c10descs) = false ∧
    (validateTransaction (LedgerCore.assembleTx "t" "ts" "g" "ALLOCATION"
        (LedgerCore.entriesLoop "t" "g" (c10descs.zip c10ids) emptyState "0").1
        (LedgerCore.entriesLoop "t" "g" (c10descs.zip c10ids) emptyState "0").2.2
        "d" none)).valid = false ∧
    LedgerCore.getTransaction "t"
      (LedgerCore.createTransaction "t" "ts" c10ids "g" "ALLOCATION" c10descs "d" none
        emptyState).2 = none :=
  ⟨by decide, by decide,
   (c10_validation_failure_keeps_entries "t" "ts" "g" "ALLOCATION" "d" c10ids none emptyState
      c10descs (by decide) (by decide) (by decide) (by decide) (by decide)).2.2.1⟩
